import Mathlib

/-!
Verification of the tribitr-web sync subsystem: the server-side push
endpoint with optimistic concurrency (src/unnamed/part_001) and the
client-side snapshot merge engine (src/unnamed/part_002).

Server snapshots are untyped JSON (`Record<string, unknown>` in the
source), so they are embedded as a `Json` value type.  `Date.parse` is
modelled as an explicit parameter `parse : String → Option Int`
(`none` standing for `NaN`); all other behaviour is translated
directly from the source.
-/

/- JSON values, as handled by the sync endpoint.  `num` carries an `Int`:
the numbers the protocol stores (revisions) are integers.  Mutual
inductives (instead of a nested `List Json`) keep all recursions
structural so that concrete evaluation reduces in the kernel. -/
mutual

inductive Json where
  | null : Json
  | bool : Bool → Json
  | num : Int → Json
  | str : String → Json
  | arr : JsonList → Json
  | obj : JsonMap → Json
deriving DecidableEq

inductive JsonList where
  | nil : JsonList
  | cons : Json → JsonList → JsonList
deriving DecidableEq

inductive JsonMap where
  | nil : JsonMap
  | cons : String → Json → JsonMap → JsonMap
deriving DecidableEq

end

/-- First-match field lookup: JavaScript objects have unique keys, so
first match is plain property access. -/
def JsonMap.lookup : JsonMap → String → Option Json
  | .nil, _ => none
  | .cons k v t, key => if k = key then some v else t.lookup key

/-- `o[k] = v` on a JavaScript object: replaces the value in place if the
key exists (keeping its position), otherwise appends the key. -/
def JsonMap.set : JsonMap → String → Json → JsonMap
  | .nil, key, v => .cons key v .nil
  | .cons k v' t, key, v => if k = key then .cons key v t else .cons k v' (t.set key v)

/-- Field assignment on a JSON value; only ever applied to objects. -/
def Json.setField : Json → String → Json → Json
  | .obj m, key, v => .obj (m.set key v)
  | j, _, _ => j

/-- Field access on a JSON value (`undefined` as `none`). -/
def jsonGet : Json → String → Option Json
  | .obj m, key => m.lookup key
  | _, _ => none

/-- JavaScript falsiness of a JSON value (`NaN` cannot occur: `num` is an
integer).  Arrays and objects are always truthy. -/
def Json.isFalsy : Json → Bool
  | .null => true
  | .bool b => !b
  | .num n => n == 0
  | .str s => s == ""
  | .arr _ => false
  | .obj _ => false

mutual

/- JavaScript `String(v)` coercion of a JSON value. -/
def Json.jsCoerce : Json → String
  | .null => "null"
  | .bool b => if b then "true" else "false"
  | .num n => n.repr
  | .str s => s
  | .arr l => l.jsCoerceElems
  | .obj _ => "[object Object]"

/-- `Array.prototype.join(",")` as used by array-to-string coercion:
`null` elements coerce to the empty string. -/
def JsonList.jsCoerceElems : JsonList → String
  | .nil => ""
  | .cons j .nil => (match j with | .null => "" | _ => j.jsCoerce)
  | .cons j t => (match j with | .null => "" | _ => j.jsCoerce) ++ "," ++ t.jsCoerceElems

end

/-- `String(v || "")` applied to a possibly-absent field: an absent or
falsy value gives `""`, a truthy value is coerced. -/
def jsStr : Option Json → String
  | none => ""
  | some j => if j.isFalsy then "" else j.jsCoerce

/-- One hexadecimal digit, lower case. -/
def hexDigitChar (n : Nat) : Char :=
  if n < 10 then Char.ofNat (48 + n) else Char.ofNat (87 + n)

/-- Four-digit hexadecimal rendering of a code point, for `\uXXXX`
escapes. -/
def hex4 (n : Nat) : String :=
  String.mk [hexDigitChar (n / 4096 % 16), hexDigitChar (n / 256 % 16),
    hexDigitChar (n / 16 % 16), hexDigitChar (n % 16)]

/-- `JSON.stringify` escaping for one character inside a string literal. -/
def escapeJsonChar (c : Char) : String :=
  if c = '"' then "\\\""
  else if c = '\\' then "\\\\"
  else if c = '\n' then "\\n"
  else if c = '\r' then "\\r"
  else if c = '\t' then "\\t"
  else if c = '\x08' then "\\b"
  else if c = '\x0c' then "\\f"
  else if c.toNat < 32 then "\\u" ++ hex4 c.toNat
  else String.mk [c]

/-- A JSON string literal: quotes plus escaped content. -/
def quoteJson (s : String) : String :=
  "\"" ++ String.join (s.toList.map escapeJsonChar) ++ "\""

mutual

/- `JSON.stringify` of a JSON value, used by the endpoint snapshot
size check. -/
def Json.stringify : Json → String
  | .null => "null"
  | .bool b => if b then "true" else "false"
  | .num n => n.repr
  | .str s => quoteJson s
  | .arr l => "[" ++ l.stringifyElems ++ "]"
  | .obj m => "\x7b" ++ m.stringifyFields ++ "\x7d"

def JsonList.stringifyElems : JsonList → String
  | .nil => ""
  | .cons j .nil => j.stringify
  | .cons j t => j.stringify ++ "," ++ t.stringifyElems

def JsonMap.stringifyFields : JsonMap → String
  | .nil => ""
  | .cons k v .nil => quoteJson k ++ ":" ++ v.stringify
  | .cons k v t => quoteJson k ++ ":" ++ v.stringify ++ "," ++ t.stringifyFields

end

/-- ASCII whitespace, for `String.prototype.trim` (the snapshots' fields
only ever hold ASCII whitespace). -/
def isJsSpace (c : Char) : Bool :=
  c = ' ' || c = '\t' || c = '\n' || c = '\r' || c = '\x0b' || c = '\x0c'

/-- `String.prototype.trim`. -/
def jsTrim (s : String) : String :=
  String.mk (((s.toList.dropWhile isJsSpace).reverse.dropWhile isJsSpace).reverse)

/-- `String.prototype.toLowerCase` (ASCII, which covers every string the
code lower-cases). -/
def jsToLower (s : String) : String :=
  String.mk (s.toList.map Char.toLower)

/-- `haystack.includes(needle)` on character lists. -/
def containsSub : List Char → List Char → Bool
  | hay, pat =>
    match hay with
    | [] => pat.isEmpty
    | _ :: rest => pat.isPrefixOf hay || containsSub rest pat

/-- `String.prototype.includes`. -/
def strIncludes (s pat : String) : Bool :=
  containsSub s.toList pat.toList

/-- Case-insensitive test for the regex `^https?:\/\//i`. -/
def startsWithHttp (s : String) : Bool :=
  "http://".toList.isPrefixOf (jsToLower s).toList ||
    "https://".toList.isPrefixOf (jsToLower s).toList

/-- `String.prototype.split(sep)` for a one-character separator. -/
def splitCharAux (sep : Char) (cur : List Char) : List Char → List String
  | [] => [String.mk cur.reverse]
  | c :: rest =>
    if c = sep then String.mk cur.reverse :: splitCharAux sep [] rest
    else splitCharAux sep (c :: cur) rest

def splitChar (sep : Char) (s : String) : List String :=
  splitCharAux sep [] s.toList

/-- Value of a hexadecimal digit, `none` otherwise. -/
def hexVal (c : Char) : Option Nat :=
  if '0' ≤ c ∧ c ≤ '9' then some (c.toNat - 48)
  else if 'a' ≤ c ∧ c ≤ 'f' then some (c.toNat - 87)
  else if 'A' ≤ c ∧ c ≤ 'F' then some (c.toNat - 55)
  else none

/-- `decodeURIComponent`, modelled for single-byte escapes; a malformed
`%` sequence is kept verbatim instead of throwing (the sanitizer's
`try` block would swallow the throw for the whole URL anyway). -/
def decodePercentAux : List Char → List Char
  | [] => []
  | '%' :: h1 :: h2 :: rest =>
    match hexVal h1, hexVal h2 with
    | some a, some b => Char.ofNat (16 * a + b) :: decodePercentAux rest
    | _, _ => '%' :: decodePercentAux (h1 :: h2 :: rest)
  | c :: rest => c :: decodePercentAux rest

def decodePercent (s : String) : String :=
  String.mk (decodePercentAux s.toList)

/-- The regex replace `/\.[a-z0-9]{2,5}$/i → ""`: strip a trailing
dot-plus-2-to-5-alphanumerics extension. -/
def stripExtension (s : String) : String :=
  let rev := s.toList.reverse
  let ext := rev.takeWhile Char.isAlphanum
  match rev.drop ext.length with
  | '.' :: before =>
    if 2 ≤ ext.length ∧ ext.length ≤ 5 then String.mk before.reverse else s
  | _ => s

/-- The regex replace `/[_-]+/g → " "`: each run of underscores or
hyphens becomes a single space. -/
def squashSepsAux (prevSep : Bool) : List Char → List Char
  | [] => []
  | c :: rest =>
    if c = '_' ∨ c = '-' then
      if prevSep then squashSepsAux true rest else ' ' :: squashSepsAux true rest
    else c :: squashSepsAux false rest

def squashSeps (s : String) : String :=
  String.mk (squashSepsAux false s.toList)

/-- The regex replace `/\s+/g → " "`: each whitespace run becomes a
single space. -/
def collapseSpacesAux (prevSpace : Bool) : List Char → List Char
  | [] => []
  | c :: rest =>
    if isJsSpace c then
      if prevSpace then collapseSpacesAux true rest else ' ' :: collapseSpacesAux true rest
    else c :: collapseSpacesAux false rest

def collapseSpaces (s : String) : String :=
  String.mk (collapseSpacesAux false s.toList)

/-- The pieces of a parsed URL that the sanitizer reads. -/
structure UrlParts where
  scheme : String
  hostPort : String
  hostname : String
  pathname : String
deriving DecidableEq

/-- Modelled from the source's `new URL(rawUrl)`: a simplified WHATWG URL
parse keeping only scheme, host (with and without port) and path.
Userinfo, query strings and fragments are not separated out, and a URL
with an empty scheme or host is rejected (`new URL` throws there). -/
def parseUrl (raw : String) : Option UrlParts :=
  match splitCharAux ':' [] raw.toList with
  | scheme :: rest =>
    let after := String.intercalate ":" rest
    if scheme = "" ∨ ¬ "//".toList.isPrefixOf after.toList then none
    else
      match splitChar '/' (String.mk (after.toList.drop 2)) with
      | [] => none
      | hostPort :: pathParts =>
        if hostPort = "" then none
        else
          some
            { scheme := jsToLower scheme
              hostPort := jsToLower hostPort
              hostname := (splitChar ':' (jsToLower hostPort)).headI
              pathname :=
                if pathParts = [] then "/"
                else "/" ++ String.intercalate "/" pathParts }
  | [] => none

/-- `shouldClearManualImage` (src/unnamed/part_001:7-12). -/
def shouldClearManualImage (attribution : Option Json) : Bool :=
  jsToLower (jsTrim (jsStr attribution)) = ""

/-- `needsAttributionBackfill` (src/unnamed/part_001:14-19). -/
def needsAttributionBackfill (attribution : Option Json) : Bool :=
  let normalized := jsToLower (jsTrim (jsStr attribution))
  normalized = "" || normalized = "url manual"

/-- Result record of `inferAttributionFromUrl`. -/
structure InferredAttribution where
  imageAttribution : String
  imageAttributionUrl : String
  source : String
deriving DecidableEq

/-- The fixed provider table of `inferAttributionFromUrl`
(src/unnamed/part_001:25-33): host fragment, label, source tag. -/
def attributionSourceMap : List (String × String × String) :=
  [("wikipedia.org", "Wikipedia", "wikipedia-url"),
   ("wikimedia.org", "Wikimedia Commons", "wikimedia-url"),
   ("unsplash.com", "Unsplash", "unsplash-url"),
   ("pexels.com", "Pexels", "pexels-url"),
   ("pixabay.com", "Pixabay", "pixabay-url"),
   ("openverse.org", "Openverse", "openverse-url"),
   ("pxhere.com", "pxhere", "pxhere-url")]

/-- `inferAttributionFromUrl` (src/unnamed/part_001:21-58): `none` models
the `catch` branch on an unparsable URL. -/
def inferAttributionFromUrl (rawUrl : String) : Option InferredAttribution :=
  match parseUrl rawUrl with
  | none => none
  | some url =>
    let host := url.hostname
    let matched := attributionSourceMap.find? (fun item => strIncludes host item.1)
    let pathname := decodePercent url.pathname
    let rawTitle := (((splitChar '/' pathname).filter (fun p => p ≠ "")).getLast?).getD ""
    let title := jsTrim (collapseSpaces (squashSeps (stripExtension rawTitle)))
    let baseUrl := url.scheme ++ "://" ++ url.hostPort
    match matched with
    | some item =>
      some
        { imageAttribution := if title ≠ "" then item.2.1 ++ ": " ++ title else item.2.1
          imageAttributionUrl := baseUrl
          source := item.2.2 }
    | none =>
      some
        { imageAttribution :=
            if title ≠ "" then "Fuente: " ++ host ++ " (" ++ title ++ ")"
            else "Fuente: " ++ host
          imageAttributionUrl := baseUrl
          source := "url-scan" }

/-- The legacy source-tag table of `normalizeSourceFromUrl`
(src/unnamed/part_001:62-71). -/
def legacySourceMap : List (String × String) :=
  [("manual-url-scan", "url-scan"),
   ("wikipedia-manual-url", "wikipedia-url"),
   ("wikimedia commons-manual-url", "wikimedia-url"),
   ("unsplash-manual-url", "unsplash-url"),
   ("pexels-manual-url", "pexels-url"),
   ("pixabay-manual-url", "pixabay-url"),
   ("openverse-manual-url", "openverse-url"),
   ("pxhere-manual-url", "pxhere-url")]

/-- `String(v)` on a possibly-absent truthy value, `""` when falsy: the
`currentSource ? String(currentSource) : ""` fallback. -/
def jsStrTruthy : Option Json → String
  | none => ""
  | some j => if j.isFalsy then "" else j.jsCoerce

/-- `normalizeSourceFromUrl` (src/unnamed/part_001:60-82). -/
def normalizeSourceFromUrl (rawUrl : String) (currentSource : Option Json) : String :=
  let current := jsToLower (jsTrim (jsStr currentSource))
  match (legacySourceMap.find? (fun p => p.1 = current)).map (fun p => p.2) with
  | some legacy => legacy
  | none =>
    match inferAttributionFromUrl rawUrl with
    | some inferred =>
      if inferred.source ≠ "" ∧
          (current = "" ∨ current = "manual-url" ∨ current = "url-scan") then
        inferred.source
      else jsStrTruthy currentSource
    | none => jsStrTruthy currentSource

/-- The custom-image group wipe of `sanitizeSnapshotImages`
(src/unnamed/part_001:103-108): clear all five image fields and
restamp the item. -/
def clearedImageGroup (now : String) (m2 : JsonMap) : JsonMap :=
  (((((m2.set "customImageUrl" (Json.str "")).set "customImageAttribution"
    (Json.str "")).set "customImageAttributionUrl" (Json.str "")).set "imageSource"
    (Json.str "")).set "imageGeneratedAt" (Json.str "")).set "updatedAt" (Json.str now)

/-- The source normalization and attribution backfill applied to one food
with a custom image (src/unnamed/part_001:91-101). -/
def foodAfterBackfill (food : JsonMap) : JsonMap :=
  let customImageUrl := jsTrim (jsStr (food.lookup "customImageUrl"))
  let m1 :=
    if startsWithHttp customImageUrl then
      food.set "imageSource"
        (.str (normalizeSourceFromUrl customImageUrl (food.lookup "imageSource")))
    else food
  if startsWithHttp customImageUrl &&
      needsAttributionBackfill (m1.lookup "customImageAttribution") then
    match inferAttributionFromUrl customImageUrl with
    | some inferred =>
      ((m1.set "customImageAttribution" (.str inferred.imageAttribution)).set
          "customImageAttributionUrl" (.str inferred.imageAttributionUrl)).set
        "imageSource" (.str inferred.source)
    | none => m1
  else m1

/-- One food entry of the per-item custom-image sanitization pass inside
`sanitizeSnapshotImages` (src/unnamed/part_001:87-109): skip items
without a custom-image URL, backfill attribution, then clear the whole
group when the attribution is still empty. -/
def sanitizeFoodObj (now : String) (m : JsonMap) : JsonMap :=
  let customImageUrl := jsTrim (jsStr (m.lookup "customImageUrl"))
  if customImageUrl = "" then m
  else
    let m2 := foodAfterBackfill m
    if !shouldClearManualImage (m2.lookup "customImageAttribution") then m2
    else clearedImageGroup now m2

/-- `Object.values(foods).forEach(...)` with per-food in-place mutation.
`String(food.customImageUrl || "")` (src/unnamed/part_001:88)
dereferences every value: a `null` entry throws a TypeError (`none`
here), an object entry is sanitized in place, and any other value
answers `undefined` for the property read, so the item is skipped
unchanged. -/
def sanitizeFood (now : String) : Json → Option Json
  | .null => none
  | .obj m => some (.obj (sanitizeFoodObj now m))
  | j => some j

/-- The foods pass over an object-valued `foods` map; `none` propagates a
thrown TypeError. -/
def sanitizeFoodsMap (now : String) : JsonMap → Option JsonMap
  | .nil => some .nil
  | .cons k v t =>
    match sanitizeFood now v, sanitizeFoodsMap now t with
    | some v', some t' => some (.cons k v' t')
    | _, _ => none

/-- The foods pass over an array-valued `foods` field: `Object.values` of
an array yields its elements, which are sanitized in place; a `null`
element throws just as a `null` map entry does. -/
def sanitizeFoodsList (now : String) : JsonList → Option JsonList
  | .nil => some .nil
  | .cons v t =>
    match sanitizeFood now v, sanitizeFoodsList now t with
    | some v', some t' => some (.cons v' t')
    | _, _ => none

/-- One family-override entry of the sanitization pass
(src/unnamed/part_001:114-132); `none` models `delete
familyOverrides[family]`. -/
def sanitizeOverrideEntry (_now : String) : Json → Option Json
  | .obj im =>
    let imageUrl := jsTrim (jsStr (im.lookup "imageUrl"))
    if imageUrl = "" then some (.obj im)
    else
      let im1 :=
        if startsWithHttp imageUrl then
          let im0 :=
            im.set "imageSource"
              (.str (normalizeSourceFromUrl imageUrl (im.lookup "imageSource")))
          if needsAttributionBackfill (im0.lookup "imageAttribution") then
            match inferAttributionFromUrl imageUrl with
            | some inferred =>
              ((im0.set "imageAttribution" (.str inferred.imageAttribution)).set
                  "imageAttributionUrl" (.str inferred.imageAttributionUrl)).set
                "imageSource" (.str inferred.source)
            | none => im0
          else im0
        else im
      if shouldClearManualImage (im1.lookup "imageAttribution") then none
      else some (.obj im1)
  | j => some j

def sanitizeOverridesMap (now : String) : JsonMap → JsonMap
  | .nil => .nil
  | .cons k v t =>
    match sanitizeOverrideEntry now v with
    | some v' => .cons k v' (sanitizeOverridesMap now t)
    | none => sanitizeOverridesMap now t

/-- The overrides pass over an array-valued `familyOverrides` field:
`Object.keys` of an array yields its indices, the element objects are
mutated in place, and `delete familyOverrides[i]` leaves a hole, which
serializes as `null` downstream.  The `|| {}` guard keeps `null`
elements from throwing here. -/
def sanitizeOverridesList (now : String) : JsonList → JsonList
  | .nil => .nil
  | .cons v t =>
    .cons
      (match sanitizeOverrideEntry now v with
        | some v' => v'
        | none => .null)
      (sanitizeOverridesList now t)

/-- `sanitizeSnapshotImages` (src/unnamed/part_001:84-136).  The
`JSON.parse(JSON.stringify(snapshot))` deep copy is the identity on
JSON data.  A falsy or missing `foods`/`familyOverrides` field is
written back as the `|| {}` default, exactly as the final
reassignments do; an array value is iterated element-wise; a truthy
primitive passes through untouched, every property read on it
yielding `undefined`.  `none` models the TypeError thrown at
src/unnamed/part_001:88 on a `null` food entry, which escapes the
handler before any store access. -/
def sanitizeSnapshotImages (now : String) (snapshot : Json) : Option Json :=
  let foodsVal : Option Json :=
    match jsonGet snapshot "foods" with
    | some (.obj m) => (sanitizeFoodsMap now m).map Json.obj
    | some (.arr l) => (sanitizeFoodsList now l).map Json.arr
    | some v => if v.isFalsy then some (.obj .nil) else some v
    | none => some (.obj .nil)
  match foodsVal with
  | none => none
  | some fv =>
    let next := snapshot.setField "foods" fv
    let overridesVal : Json :=
      match jsonGet next "familyOverrides" with
      | some (.obj m) => .obj (sanitizeOverridesMap now m)
      | some (.arr l) => .arr (sanitizeOverridesList now l)
      | some v => if v.isFalsy then .obj .nil else v
      | none => .obj .nil
    some (next.setField "familyOverrides" overridesVal)

/-- One character of `tokenPattern = /^[a-zA-Z0-9_-]{8,128}$/`. -/
def isTokenChar (c : Char) : Bool :=
  c.isAlphanum || c = '_' || c = '-'

/-- `isValidToken` (src/unnamed/part_001:152-154): `Boolean(value &&
tokenPattern.test(value))` over an optional body field. -/
def isValidToken : Option String → Bool
  | none => false
  | some s => s ≠ "" && (8 ≤ s.length && (s.length ≤ 128 && s.toList.all isTokenChar))

/-- `isValidSnapshot` (src/unnamed/part_001:156-163): a non-null,
non-array object whose serialization stays within 1,000,000
characters.  The `try/catch` cannot fire: `Json` data has no circular
references. -/
def isValidSnapshot : Option Json → Bool
  | none => false
  | some (.obj m) => (Json.obj m).stringify.length ≤ 1000000
  | some _ => false

/-- One row of the `profile_snapshots` table. -/
structure StorageRow where
  shareCode : String
  profileId : String
  snapshot : Json
  revision : Int
  updatedAt : String
deriving DecidableEq

/-- The snapshot store: the `profile_snapshots` table. -/
abbrev Store := List StorageRow

/-- `select ... where share_code = $1 and profile_id = $2`. -/
def findRow (store : Store) (shareCode profileId : String) : Option StorageRow :=
  List.find? (fun r => r.shareCode == shareCode && r.profileId == profileId) store

/-- `update profile_snapshots set snapshot=$1, revision=$2, updated_at=now()
where share_code=$3 and profile_id=$4`. -/
def updateRow (store : Store) (shareCode profileId : String) (snapshot : Json)
    (revision : Int) (now : String) : Store :=
  List.map
    (fun r =>
      if r.shareCode == shareCode && r.profileId == profileId then
        { r with snapshot := snapshot, revision := revision, updatedAt := now }
      else r)
    store

/-- The request body of `POST /push` (src/unnamed/part_001:143-148).
`baseRevision = none` models an absent, non-numeric or non-integer
value (all rejected by the same `typeof/Number.isInteger` guard). -/
structure PushBody where
  shareCode : Option String
  profileId : Option String
  baseRevision : Option Int
  snapshot : Option Json

/-- The three response shapes of `POST /push` (400, 200, 409), plus
`fault` for a request on which the handler throws: the sanitizer's
TypeError on a `null` food entry escapes the async handler, so no
protocol response is produced and storage is untouched (every store
query comes after the sanitization call). -/
inductive PushResult where
  | error : String → PushResult
  | accepted : Json → Int → PushResult
  | conflict : Json → Int → PushResult
  | fault : PushResult
deriving DecidableEq

def PushResult.isError : PushResult → Bool
  | .error _ => true
  | _ => false

/-- `router.post("/push")` (src/unnamed/part_001:194-258) as a pure
transition: request body plus current store to response plus new
store.  All `new Date()` calls of one request are modelled as the
single instant `now`. -/
def pushHandler (now : String) (store : Store) (body : PushBody) : PushResult × Store :=
  if !(isValidToken body.shareCode && isValidToken body.profileId) then
    (.error "shareCode or profileId format is invalid", store)
  else if !isValidSnapshot body.snapshot then
    (.error "snapshot is invalid", store)
  else
    match body.baseRevision with
    | none => (.error "baseRevision must be a positive integer", store)
    | some baseRevision =>
      if baseRevision < 0 then (.error "baseRevision must be a positive integer", store)
      else
        let shareCode := body.shareCode.getD ""
        let profileId := body.profileId.getD ""
        let snapshot := body.snapshot.getD .null
        if shareCode = "" ∨ profileId = "" ∨ snapshot.isFalsy then
          (.error "shareCode, profileId and snapshot are required", store)
        else
          match sanitizeSnapshotImages now snapshot with
          | none => (.fault, store)
          | some sanitizedSnapshot =>
            match findRow store shareCode profileId with
            | none =>
              let nextRevision : Int := 1
              let snapshotToSave :=
                (sanitizedSnapshot.setField "revision" (.num nextRevision)).setField
                  "updatedAt" (.str now)
              (.accepted snapshotToSave nextRevision,
                store ++ [StorageRow.mk shareCode profileId snapshotToSave nextRevision now])
            | some existing =>
              if baseRevision ≠ existing.revision then
                (.conflict existing.snapshot existing.revision, store)
              else
                let nextRevision := existing.revision + 1
                let snapshotToSave :=
                  (sanitizedSnapshot.setField "revision" (.num nextRevision)).setField
                    "updatedAt" (.str now)
                (.accepted snapshotToSave nextRevision,
                  updateRow store shareCode profileId snapshotToSave nextRevision now)

/-- Client settings record (src/unnamed/part_001:301-307); the enums are
kept as strings, settings are only ever compared and copied
wholesale. -/
structure Settings where
  theme : String
  language : String
  hideIntroduced : Bool
  showHidden : Bool
  showNotSuitableFoods : Option Bool
deriving DecidableEq

/-- The legacy nested `ai` record that `normalizeFoods` lifts
(src/unnamed/part_002:486-497); absent on current-schema items. -/
structure AiLegacy where
  description : Option String
  reactions : Option String
  generatedAt : Option String
  model : Option String
deriving DecidableEq

/-- `FoodState` (src/unnamed/part_001:274-289).  `exposures` keeps the
`checkedAt` timestamps directly (the source wraps each in a one-field
`{ checkedAt }` record).  The extra `ai` field carries the legacy
shape that `normalizeFoods` reads through a cast. -/
structure FoodState where
  foodId : String
  isHidden : Bool
  notes : String
  exposures : List String
  customImageUrl : Option String
  customImageAttribution : Option String
  customImageAttributionUrl : Option String
  imageGeneratedAt : Option String
  imageSource : Option String
  description : Option String
  reactions : Option String
  descriptionGeneratedAt : Option String
  descriptionModel : Option String
  updatedAt : String
  ai : Option AiLegacy
deriving DecidableEq

/-- `FoodSeed` (src/unnamed/part_002:34-42). -/
structure FoodSeed where
  id : String
  name : String
  family : String
  allergens : List String
  imageUrl : String
  imageAttribution : Option String
  imageAttributionUrl : Option String
deriving DecidableEq

/-- `FamilyOverride` (src/unnamed/part_002:535-539). -/
structure FamilyOverride where
  imageUrl : String
  imageAttribution : Option String
  imageAttributionUrl : Option String
  imageSource : Option String
deriving DecidableEq

/-- `ProfileSnapshot.meta` (src/unnamed/part_001:333-335). -/
@[ext]
structure SnapshotMeta where
  orderUpdatedAt : Option String
deriving DecidableEq

/-- `ProfileSnapshot` (src/unnamed/part_001:291-336).  The `Record<string, _>`
maps become insertion-ordered association lists with unique keys, the
JavaScript object representation. -/
@[ext]
structure ProfileSnapshot where
  schemaVersion : Int
  profileId : String
  profileName : String
  shareCode : String
  babyName : Option String
  babyBirthDate : Option String
  correctedWeeks : Option Int
  revision : Int
  updatedAt : String
  settings : Settings
  foods : List (String × FoodState)
  customFoods : Option (List (String × FoodSeed))
  customFamilies : Option (List String)
  familyOrder : Option (List String)
  familyOverrides : Option (List (String × FamilyOverride))
  order : List String
  meta : SnapshotMeta
deriving DecidableEq

/-- JavaScript object property read on an association list. -/
def alLookup {α : Type} (m : List (String × α)) (k : String) : Option α :=
  (List.find? (fun p => p.1 = k) m).map (fun p => p.2)

/-- JavaScript object property write: replace in place, else append. -/
def alSet {α : Type} : List (String × α) → String → α → List (String × α)
  | [], k, v => [(k, v)]
  | p :: t, k, v => if p.1 = k then (k, v) :: t else p :: alSet t k v

/-- Object spread `{...a, ...b}`. -/
def alSpread {α : Type} (a b : List (String × α)) : List (String × α) :=
  b.foldl (fun acc p => alSet acc p.1 p.2) a

/-- `Object.keys`. -/
def alKeys {α : Type} (m : List (String × α)) : List String :=
  m.map (fun p => p.1)

/-- `new Set(list)` iteration order: first occurrences, in order. -/
def dedupFirstAux (seen : List String) : List String → List String
  | [] => []
  | x :: xs =>
    if seen.contains x then dedupFirstAux seen xs
    else x :: dedupFirstAux (x :: seen) xs

def dedupFirst (l : List String) : List String :=
  dedupFirstAux [] l

/-- JavaScript `a || b` for strings. -/
def strOr (a b : String) : String :=
  if a = "" then b else a

/-- JavaScript `a || b` where `a` is a possibly-undefined string. -/
def optStrOr (a : Option String) (b : String) : String :=
  match a with
  | none => b
  | some s => if s = "" then b else s

/-- `toTimestamp` (src/unnamed/part_002:573-577): `Date.parse` is the
abstract `parse` (`none` = `NaN`, folded to `0` by the
`Number.isFinite` guard); a falsy input is `0` without parsing. -/
def toTimestamp (parse : String → Option Int) (value : Option String) : Int :=
  match value with
  | none => 0
  | some v => if v = "" then 0 else (parse v).getD 0

/-- JavaScript `a >= b` on two `Date.parse` results: false whenever
either side is `NaN`. -/
def jsGE (a b : Option Int) : Bool :=
  match a, b with
  | some x, some y => y ≤ x
  | _, _ => false

/-- `getOrderUpdatedAt` (src/unnamed/part_002:568-571); the `!snapshot`
guard is dropped, every call site passes a snapshot. -/
def getOrderUpdatedAt (snapshot : ProfileSnapshot) : String :=
  optStrOr snapshot.meta.orderUpdatedAt (strOr snapshot.updatedAt "")

/-- The comparison key used by the exposure sort. -/
def expKey (parse : String → Option Int) (s : String) : Int :=
  toTimestamp parse (some s)

/-- Stable ascending insertion for the exposure sort: an element passes
over exactly the earlier entries with a strictly smaller key, as the
stable `Array.prototype.sort` does. -/
def insertByTs (parse : String → Option Int) (x : String) : List String → List String
  | [] => [x]
  | y :: ys =>
    if expKey parse y < expKey parse x then y :: insertByTs parse x ys
    else x :: y :: ys

def sortByTs (parse : String → Option Int) : List String → List String
  | [] => []
  | x :: xs => insertByTs parse x (sortByTs parse xs)

/-- `mergeExposures` (src/unnamed/part_002:579-589): keep truthy
timestamps from both sides, deduplicate keeping first occurrences,
sort ascending by parsed time, cap at the first three. -/
def mergeExposures (parse : String → Option Int) (left right : List String) : List String :=
  let all := (left ++ right).filter (fun s => s != "")
  let unique := dedupFirst all
  (sortByTs parse unique).take 3

/-- `mergeFoodState` (src/unnamed/part_002:591-619). -/
def mergeFoodState (parse : String → Option Int) (localFood remoteFood : FoodState) :
    FoodState :=
  let localTime := toTimestamp parse (some localFood.updatedAt)
  let remoteTime := toTimestamp parse (some remoteFood.updatedAt)
  let newer := if remoteTime ≤ localTime then localFood else remoteFood
  let older := if remoteTime ≤ localTime then remoteFood else localFood
  let newerAiTime := toTimestamp parse newer.descriptionGeneratedAt
  let olderAiTime := toTimestamp parse older.descriptionGeneratedAt
  let aiSource := if olderAiTime ≤ newerAiTime then newer else older
  { newer with
    exposures := mergeExposures parse localFood.exposures remoteFood.exposures
    customImageUrl := some (optStrOr newer.customImageUrl (optStrOr older.customImageUrl ""))
    customImageAttribution :=
      some (optStrOr newer.customImageAttribution (optStrOr older.customImageAttribution ""))
    customImageAttributionUrl :=
      some (optStrOr newer.customImageAttributionUrl
        (optStrOr older.customImageAttributionUrl ""))
    imageGeneratedAt := some (optStrOr newer.imageGeneratedAt (optStrOr older.imageGeneratedAt ""))
    imageSource := some (optStrOr newer.imageSource (optStrOr older.imageSource ""))
    description := some (aiSource.description.getD "")
    reactions := some (aiSource.reactions.getD "")
    descriptionGeneratedAt := some (aiSource.descriptionGeneratedAt.getD "")
    descriptionModel := some (aiSource.descriptionModel.getD "")
    updatedAt :=
      if remoteTime ≤ localTime then strOr localFood.updatedAt remoteFood.updatedAt
      else strOr remoteFood.updatedAt localFood.updatedAt }

/-- The per-item normalization inside `normalizeFoods`
(src/unnamed/part_002:485-510): default the optional fields, lifting
AI content from the legacy nested `ai` record. -/
def normalizeFoodState (food : FoodState) : FoodState :=
  { food with
    customImageUrl := some (food.customImageUrl.getD "")
    customImageAttribution := some (food.customImageAttribution.getD "")
    customImageAttributionUrl := some (food.customImageAttributionUrl.getD "")
    imageGeneratedAt := some (food.imageGeneratedAt.getD "")
    imageSource := some (food.imageSource.getD "")
    description := some ((food.description.orElse (fun _ => food.ai.bind (fun a => a.description))).getD "")
    reactions := some ((food.reactions.orElse (fun _ => food.ai.bind (fun a => a.reactions))).getD "")
    descriptionGeneratedAt :=
      some ((food.descriptionGeneratedAt.orElse (fun _ => food.ai.bind (fun a => a.generatedAt))).getD "")
    descriptionModel :=
      some ((food.descriptionModel.orElse (fun _ => food.ai.bind (fun a => a.model))).getD "") }

/-- `normalizeFoods` (src/unnamed/part_002:483-513): rebuild the map by
object assignment, normalizing each entry. -/
def normalizeFoods (foods : List (String × FoodState)) : List (String × FoodState) :=
  foods.foldl (fun acc p => alSet acc p.1 (normalizeFoodState p.2)) []

/-- `normalizeCustomFoods` (src/unnamed/part_002:515-533); `allergens` is
already a list in the model, so the `Array.isArray` guard is the
identity. -/
def normalizeCustomFoods (customFoods : Option (List (String × FoodSeed))) :
    List (String × FoodSeed) :=
  match customFoods with
  | none => []
  | some cf =>
    cf.foldl
      (fun acc p =>
        if p.2.name = "" ∨ p.2.family = "" then acc
        else
          alSet acc p.1
            { id := p.1, name := p.2.name, family := p.2.family,
              allergens := p.2.allergens, imageUrl := strOr p.2.imageUrl "",
              imageAttribution := some (optStrOr p.2.imageAttribution ""),
              imageAttributionUrl := some (optStrOr p.2.imageAttributionUrl "") })
      []

/-- `normalizeFamilyList` (src/unnamed/part_002:542-548). -/
def normalizeFamilyList (families : Option (List String)) : List String :=
  match families with
  | none => []
  | some fs => dedupFirst ((fs.map (fun s => jsToLower (jsTrim s))).filter (fun s => s != ""))

/-- `normalizeFamilyOverrides` (src/unnamed/part_002:550-566). -/
def normalizeFamilyOverrides (overrides : Option (List (String × FamilyOverride))) :
    List (String × FamilyOverride) :=
  match overrides with
  | none => []
  | some ov =>
    ov.foldl
      (fun acc p =>
        let key := jsToLower (jsTrim p.1)
        if key = "" ∨ p.2.imageUrl = "" then acc
        else
          alSet acc key
            { imageUrl := p.2.imageUrl,
              imageAttribution := some (optStrOr p.2.imageAttribution ""),
              imageAttributionUrl := some (optStrOr p.2.imageAttributionUrl ""),
              imageSource := some (optStrOr p.2.imageSource "") })
      []

/-- The item-map union built at the top of `mergeSnapshots`
(src/unnamed/part_002:625-643). -/
def mergedFoodsMap (parse : String → Option Int)
    (localFoods remoteFoods : List (String × FoodState)) : List (String × FoodState) :=
  let allFoodIds := dedupFirst (alKeys localFoods ++ alKeys remoteFoods)
  allFoodIds.foldl
    (fun acc id =>
      match alLookup localFoods id, alLookup remoteFoods id with
      | none, some remoteFood => alSet acc id remoteFood
      | some localFood, none => alSet acc id localFood
      | some localFood, some remoteFood =>
        alSet acc id (mergeFoodState parse localFood remoteFood)
      | none, none => acc)
    []

/-- `mergeSnapshots` (src/unnamed/part_002:621-700). -/
def mergeSnapshots (parse : String → Option Int) (localSnap remote : ProfileSnapshot) :
    ProfileSnapshot :=
  let mergedFoods := mergedFoodsMap parse localSnap.foods remote.foods
  let localOrderTime := parse (getOrderUpdatedAt localSnap)
  let remoteOrderTime := parse (getOrderUpdatedAt remote)
  let mergedOrder := if jsGE localOrderTime remoteOrderTime then localSnap.order else remote.order
  let localUpdatedAt := parse localSnap.updatedAt
  let remoteUpdatedAt := parse remote.updatedAt
  let settings :=
    if jsGE localUpdatedAt remoteUpdatedAt then localSnap.settings else remote.settings
  let mergedCustomFoods :=
    alSpread (normalizeCustomFoods localSnap.customFoods) (normalizeCustomFoods remote.customFoods)
  let mergedCustomFamilies :=
    dedupFirst (normalizeFamilyList localSnap.customFamilies ++ normalizeFamilyList remote.customFamilies)
  let mergedFamilyOverrides :=
    alSpread (normalizeFamilyOverrides localSnap.familyOverrides)
      (normalizeFamilyOverrides remote.familyOverrides)
  let localFamilyOrder := normalizeFamilyList localSnap.familyOrder
  let remoteFamilyOrder := normalizeFamilyList remote.familyOrder
  let mergedFamilyOrder :=
    if localFamilyOrder.length = 0 ∧ 0 < remoteFamilyOrder.length then remoteFamilyOrder
    else if remoteFamilyOrder.length = 0 ∧ 0 < localFamilyOrder.length then localFamilyOrder
    else if jsGE localUpdatedAt remoteUpdatedAt then localFamilyOrder
    else remoteFamilyOrder
  { remote with
    profileName := strOr remote.profileName localSnap.profileName
    shareCode := strOr remote.shareCode localSnap.shareCode
    foods := normalizeFoods mergedFoods
    customFoods := some mergedCustomFoods
    customFamilies := some mergedCustomFamilies
    familyOrder := some mergedFamilyOrder
    familyOverrides := some mergedFamilyOverrides
    order := mergedOrder
    settings := settings
    updatedAt := if jsGE localUpdatedAt remoteUpdatedAt then localSnap.updatedAt else remote.updatedAt
    meta :=
      { orderUpdatedAt :=
          some
            (if jsGE localOrderTime remoteOrderTime then getOrderUpdatedAt localSnap
             else getOrderUpdatedAt remote) } }

/-- Normal form for a snapshot: the shape `mergeSnapshots` itself
produces.  Every food entry is a fixed point of the self-merge plus
normalization, the food keys are unique, the auxiliary collections are
present and fixed by their normalizers, and the order timestamp is
present and self-describing. -/
def SnapNormal (parse : String → Option Int) (S : ProfileSnapshot) : Prop :=
  (alKeys S.foods).Nodup ∧
  (∀ p ∈ S.foods, normalizeFoodState (mergeFoodState parse p.2 p.2) = p.2) ∧
  S.customFoods = some (normalizeCustomFoods S.customFoods) ∧
  S.customFamilies = some (normalizeFamilyList S.customFamilies) ∧
  S.familyOrder = some (normalizeFamilyList S.familyOrder) ∧
  S.familyOverrides = some (normalizeFamilyOverrides S.familyOverrides) ∧
  S.meta.orderUpdatedAt = some (getOrderUpdatedAt S)

instance (parse : String → Option Int) (S : ProfileSnapshot) :
    Decidable (SnapNormal parse S) := by
  unfold SnapNormal
  infer_instance

/-- Balanced binary JSON tree: `stringify` grows exponentially in the
depth, giving a small term whose serialization exceeds the snapshot
size ceiling. -/
def bigJson : Nat → Json
  | 0 => .str "a"
  | n + 1 => .arr (.cons (bigJson n) (.cons (bigJson n) .nil))

/-- A concrete stand-in for `Date.parse` in witnesses: the length of the
timestamp string. -/
def lenParse : String → Option Int :=
  fun s => some (Int.ofNat s.length)

/-- A normalized food entry used by concrete witnesses. -/
def wFood : FoodState :=
  { foodId := "apple", isHidden := false, notes := "", exposures := ["a", "bb"],
    customImageUrl := some "", customImageAttribution := some "",
    customImageAttributionUrl := some "", imageGeneratedAt := some "",
    imageSource := some "", description := some "", reactions := some "",
    descriptionGeneratedAt := some "", descriptionModel := some "",
    updatedAt := "ttttt", ai := none }

/-- A normalized snapshot used by concrete witnesses. -/
def wSnap : ProfileSnapshot :=
  { schemaVersion := 1, profileId := "profile1", profileName := "Bebe",
    shareCode := "abcdefgh", babyName := none, babyBirthDate := none,
    correctedWeeks := none, revision := 1, updatedAt := "ttttt",
    settings := { theme := "system", language := "es", hideIntroduced := false,
                  showHidden := false, showNotSuitableFoods := none },
    foods := [("apple", wFood)], customFoods := some [], customFamilies := some [],
    familyOrder := some [], familyOverrides := some [], order := ["apple"],
    meta := { orderUpdatedAt := some "ttttt" } }

/-- A snapshot whose only departure from normal form is a duplicated
exposure timestamp. -/
def dupSnap : ProfileSnapshot :=
  { wSnap with foods := [("apple", { wFood with exposures := ["bb", "bb"] })] }

/-- A food entry with a never-set optional field (`description` is
`undefined`), as older clients produce. -/
def looseFood : FoodState :=
  { wFood with description := none }

/-- A snapshot holding only `looseFood`. -/
def looseSnap : ProfileSnapshot :=
  { wSnap with foods := [("pear", looseFood)], order := ["pear"] }

/-- A snapshot with no food entries. -/
def emptySnap : ProfileSnapshot :=
  { wSnap with foods := [], order := [] }

/-- A second normalized snapshot, with food keys disjoint from
`wSnap`. -/
def wSnapB : ProfileSnapshot :=
  { wSnap with
    foods := [("kiwi", { wFood with foodId := "kiwi", updatedAt := "uu" })],
    order := ["kiwi"], updatedAt := "uu" }

/-- A valid push body creating a row (used by accepted-push
witnesses). -/
def wBody : PushBody :=
  { shareCode := some "abcdefgh", profileId := some "profile1",
    baseRevision := some 0,
    snapshot := some (.obj (.cons "foods" (.obj .nil) .nil)) }

/-- The row `wBody` creates at instant `"T"`. -/
def wRow : StorageRow :=
  { shareCode := "abcdefgh", profileId := "profile1",
    snapshot := .obj (.cons "foods" (.obj .nil) (.cons "familyOverrides" (.obj .nil)
      (.cons "revision" (.num 1) (.cons "updatedAt" (.str "T") .nil)))),
    revision := 1, updatedAt := "T" }

/-- A stored row at revision 5, for the conflict witness. -/
def cRow : StorageRow :=
  { shareCode := "abcdefgh", profileId := "profile1",
    snapshot := .obj (.cons "foods" (.obj .nil) .nil), revision := 5, updatedAt := "T0" }

/-- A valid push body whose `baseRevision` does not match `cRow`. -/
def cBody : PushBody :=
  { wBody with baseRevision := some 3 }

/-- An oversized push body: its snapshot serializes past the 1,000,000
character ceiling. -/
def bigBody : PushBody :=
  { wBody with snapshot := some (.obj (.cons "foods" (bigJson 18) .nil)) }

/-- A food object with an empty custom-image URL but a leftover
`imageSource`, as submitted JSON. -/
def staleFood : JsonMap :=
  .cons "customImageUrl" (.str "") (.cons "imageSource" (.str "stale") .nil)

/-- A push body whose snapshot carries `staleFood` under id `"x"`. -/
def staleBody : PushBody :=
  { wBody with snapshot := some (.obj (.cons "foods" (.obj (.cons "x" (.obj staleFood) .nil)) .nil)) }

/-- A food object with a non-empty, non-HTTP custom-image URL and no
attribution: the sanitizer clears its whole image group. -/
def clearableFood : JsonMap :=
  .cons "customImageUrl" (.str "someurl") (.cons "imageSource" (.str "stale") .nil)

/-- A push body whose snapshot carries `clearableFood` under id `"x"`. -/
def clearBody : PushBody :=
  { wBody with snapshot := some (.obj (.cons "foods" (.obj (.cons "x" (.obj clearableFood) .nil)) .nil)) }

/-- One step of building a JavaScript object by keyed assignment, used to
reason uniformly about the object-building folds. -/
def buildStep {α : Type} (h : String → Option α) (acc : List (String × α))
    (id : String) : List (String × α) :=
  match h id with
  | some v => alSet acc id v
  | none => acc

/-- Side A of the field-group independence witness: newer general edit,
older AI generation. -/
def w8a : FoodState :=
  { wFood with
    foodId := "x8", updatedAt := "uuuu",
    descriptionGeneratedAt := some "g", description := some "oldA" }

/-- Side B of the field-group independence witness: older general edit,
newer AI generation. -/
def w8b : FoodState :=
  { wFood with
    foodId := "x8", updatedAt := "uu",
    descriptionGeneratedAt := some "ggg", description := some "newB" }

/-- What the sanitizer makes of `clearableFood`: the whole custom-image
group cleared and the item restamped. -/
def wClearFood : JsonMap :=
  .cons "customImageUrl" (.str "") (.cons "imageSource" (.str "")
    (.cons "customImageAttribution" (.str "") (.cons "customImageAttributionUrl" (.str "")
      (.cons "imageGeneratedAt" (.str "") (.cons "updatedAt" (.str "T") .nil)))))

/-- The snapshot stored for `clearBody` at instant `"T"`. -/
def wClearSnap : Json :=
  .obj (.cons "foods" (.obj (.cons "x" (.obj wClearFood) .nil))
    (.cons "familyOverrides" (.obj .nil)
      (.cons "revision" (.num 1) (.cons "updatedAt" (.str "T") .nil))))

/-- What the sanitizer makes of `cBody`'s snapshot: the empty foods map
kept, the `familyOverrides` default written back. -/
def wSanitizedSnap : Json :=
  .obj (.cons "foods" (.obj .nil) (.cons "familyOverrides" (.obj .nil) .nil))

/-- A push body that passes every validation guard but whose snapshot
carries a `null` food entry: the sanitizer throws on it. -/
def nullFoodBody : PushBody :=
  { wBody with
    baseRevision := some 3,
    snapshot := some (.obj (.cons "foods" (.obj (.cons "x" .null .nil)) .nil)) }

theorem alLookup_cons {α : Type} (p : String × α) (t : List (String × α)) (k : String) :
    alLookup (p :: t) k = if p.1 = k then some p.2 else alLookup t k := by
  by_cases h : p.1 = k <;> simp [alLookup, List.find?_cons, h]

theorem alKeys_cons {α : Type} (p : String × α) (t : List (String × α)) :
    alKeys (p :: t) = p.1 :: alKeys t := rfl

theorem alLookup_isSome_iff_mem {α : Type} (m : List (String × α)) (k : String) :
    (alLookup m k).isSome = true ↔ k ∈ alKeys m := by
  induction m with
  | nil => simp [alLookup, alKeys]
  | cons p t ih =>
    rw [alLookup_cons, alKeys_cons]
    by_cases h : p.1 = k
    · simp [h]
    · simpa [h, Ne.symm h] using ih

theorem alSet_cons_of_ne {α : Type} (p : String × α) (m : List (String × α)) (k : String)
    (v : α) (h : p.1 ≠ k) : alSet (p :: m) k v = p :: alSet m k v := by
  simp [alSet, h]

theorem alLookup_alSet {α : Type} (m : List (String × α)) (k k' : String) (v : α) :
    alLookup (alSet m k v) k' = if k = k' then some v else alLookup m k' := by
  induction m with
  | nil => by_cases h : k = k' <;> simp [alSet, alLookup_cons, h]
  | cons p t ih =>
    by_cases hp : p.1 = k
    · have h1 : alSet (p :: t) k v = (k, v) :: t := by simp [alSet, hp]
      rw [h1, alLookup_cons, alLookup_cons]
      by_cases h : k = k'
      · simp [h]
      · have hpk : ¬ p.1 = k' := fun hh => h (hp.symm.trans hh)
        simp [h, hpk]
    · rw [alSet_cons_of_ne p t k v hp, alLookup_cons, ih, alLookup_cons]
      by_cases h : p.1 = k'
      · have hkk : ¬ k = k' := fun hh => hp (h.trans hh.symm)
        simp [h, hkk]
      · simp [h]

theorem alKeys_alSet_of_mem {α : Type} (m : List (String × α)) (k : String) (v : α)
    (h : k ∈ alKeys m) : alKeys (alSet m k v) = alKeys m := by
  induction m with
  | nil => simp [alKeys] at h
  | cons p t ih =>
    by_cases hp : p.1 = k
    · have h1 : alSet (p :: t) k v = (k, v) :: t := by simp [alSet, hp]
      rw [h1, alKeys_cons, alKeys_cons, hp]
    · rw [alKeys_cons, List.mem_cons] at h
      rcases h with h | h
      · exact absurd h.symm hp
      · rw [alSet_cons_of_ne p t k v hp, alKeys_cons, alKeys_cons, ih h]

theorem alKeys_alSet_of_not_mem {α : Type} (m : List (String × α)) (k : String) (v : α)
    (h : k ∉ alKeys m) : alKeys (alSet m k v) = alKeys m ++ [k] := by
  induction m with
  | nil => simp [alSet, alKeys]
  | cons p t ih =>
    rw [alKeys_cons, List.mem_cons] at h
    push_neg at h
    rw [alSet_cons_of_ne p t k v (fun hh => h.1 hh.symm), alKeys_cons, alKeys_cons,
      ih h.2, List.cons_append]

theorem alKeys_alSet_nodup {α : Type} (m : List (String × α)) (k : String) (v : α)
    (h : (alKeys m).Nodup) : (alKeys (alSet m k v)).Nodup := by
  by_cases hk : k ∈ alKeys m
  · rwa [alKeys_alSet_of_mem m k v hk]
  · rw [alKeys_alSet_of_not_mem m k v hk]
    simpa [List.nodup_append] using ⟨h, hk⟩

theorem alSet_eq_self_of_mem {α : Type} (m : List (String × α)) (p : String × α)
    (hmem : p ∈ m) (hnd : (alKeys m).Nodup) : alSet m p.1 p.2 = m := by
  induction m with
  | nil => simp at hmem
  | cons q t ih =>
    rw [alKeys_cons, List.nodup_cons] at hnd
    rcases List.mem_cons.mp hmem with h | h
    · simp [alSet, h]
    · have hq : q.1 ≠ p.1 := by
        intro hqe
        exact hnd.1 (hqe ▸ List.mem_map_of_mem (fun r => r.1) h)
      rw [alSet_cons_of_ne _ _ _ _ hq, ih h hnd.2]

theorem contains_iff_mem (l : List String) (x : String) : l.contains x = true ↔ x ∈ l :=
  List.elem_iff

theorem dedupFirstAux_cons_pos (seen : List String) (y : String) (ys : List String)
    (h : seen.contains y = true) :
    dedupFirstAux seen (y :: ys) = dedupFirstAux seen ys := by
  simp only [dedupFirstAux, if_pos h]

theorem dedupFirstAux_cons_neg (seen : List String) (y : String) (ys : List String)
    (h : ¬ seen.contains y = true) :
    dedupFirstAux seen (y :: ys) = y :: dedupFirstAux (y :: seen) ys := by
  simp only [dedupFirstAux, if_neg h]

theorem mem_dedupFirstAux (l : List String) :
    ∀ (seen : List String) (x : String),
      x ∈ dedupFirstAux seen l ↔ x ∈ l ∧ x ∉ seen := by
  induction l with
  | nil => simp [dedupFirstAux]
  | cons y ys ih =>
    intro seen x
    by_cases hy : seen.contains y = true
    · rw [dedupFirstAux_cons_pos seen y ys hy, ih seen x]
      rw [contains_iff_mem] at hy
      simp only [List.mem_cons]
      constructor
      · rintro ⟨h1, h2⟩
        exact ⟨Or.inr h1, h2⟩
      · rintro ⟨h1 | h1, h2⟩
        · exact absurd (h1 ▸ hy) h2
        · exact ⟨h1, h2⟩
    · rw [dedupFirstAux_cons_neg seen y ys hy, List.mem_cons, ih (y :: seen) x]
      rw [contains_iff_mem] at hy
      by_cases hx : x = y
      · subst hx
        simp [hy]
      · simp [hx]

theorem nodup_dedupFirstAux (l : List String) :
    ∀ seen : List String, (dedupFirstAux seen l).Nodup := by
  induction l with
  | nil => intro seen; simp [dedupFirstAux]
  | cons y ys ih =>
    intro seen
    by_cases hy : seen.contains y = true
    · rw [dedupFirstAux_cons_pos seen y ys hy]
      exact ih seen
    · rw [dedupFirstAux_cons_neg seen y ys hy, List.nodup_cons]
      refine ⟨fun hmem => ?_, ih (y :: seen)⟩
      exact ((mem_dedupFirstAux ys (y :: seen) y).mp hmem).2 (List.mem_cons_self y seen)

theorem dedupFirst_nodup (l : List String) : (dedupFirst l).Nodup :=
  nodup_dedupFirstAux l []

theorem mem_dedupFirst (l : List String) (x : String) : x ∈ dedupFirst l ↔ x ∈ l := by
  simpa [dedupFirst] using mem_dedupFirstAux l [] x

theorem dedupFirstAux_congr (l : List String) :
    ∀ seen₁ seen₂ : List String, (∀ x, x ∈ seen₁ ↔ x ∈ seen₂) →
      dedupFirstAux seen₁ l = dedupFirstAux seen₂ l := by
  induction l with
  | nil => intro _ _ _; rfl
  | cons y ys ih =>
    intro seen₁ seen₂ hs
    by_cases hy : seen₁.contains y = true
    · have hy₂ : seen₂.contains y = true := by
        rw [contains_iff_mem] at hy ⊢
        exact (hs y).mp hy
      rw [dedupFirstAux_cons_pos seen₁ y ys hy, dedupFirstAux_cons_pos seen₂ y ys hy₂]
      exact ih seen₁ seen₂ hs
    · have hy₂ : ¬ seen₂.contains y = true := by
        rw [contains_iff_mem] at hy ⊢
        exact fun h => hy ((hs y).mpr h)
      rw [dedupFirstAux_cons_neg seen₁ y ys hy, dedupFirstAux_cons_neg seen₂ y ys hy₂]
      rw [ih (y :: seen₁) (y :: seen₂) (fun x => by simp [List.mem_cons, hs x])]

theorem dedupFirstAux_append (a b : List String) :
    ∀ seen : List String,
      dedupFirstAux seen (a ++ b) = dedupFirstAux seen a ++ dedupFirstAux (a ++ seen) b := by
  induction a with
  | nil => intro seen; simp [dedupFirstAux]
  | cons y ys ih =>
    intro seen
    by_cases hy : seen.contains y = true
    · rw [List.cons_append, dedupFirstAux_cons_pos seen y (ys ++ b) hy,
        dedupFirstAux_cons_pos seen y ys hy, ih seen]
      have hmemiff : ∀ x, x ∈ ys ++ seen ↔ x ∈ (y :: ys) ++ seen := by
        intro x
        rw [contains_iff_mem] at hy
        simp only [List.mem_append, List.mem_cons]
        constructor
        · rintro (h | h)
          · exact Or.inl (Or.inr h)
          · exact Or.inr h
        · rintro ((h | h) | h)
          · exact Or.inr (h ▸ hy)
          · exact Or.inl h
          · exact Or.inr h
      rw [dedupFirstAux_congr b _ _ hmemiff]
    · rw [List.cons_append, dedupFirstAux_cons_neg seen y (ys ++ b) hy,
        dedupFirstAux_cons_neg seen y ys hy, ih (y :: seen), List.cons_append]
      have hmemiff : ∀ x, x ∈ ys ++ y :: seen ↔ x ∈ (y :: ys) ++ seen := by
        intro x
        simp only [List.mem_append, List.mem_cons]
        tauto
      rw [dedupFirstAux_congr b _ _ hmemiff]

theorem dedupFirstAux_of_nodup (l : List String) (hnd : l.Nodup) :
    ∀ seen : List String, dedupFirstAux seen l = l.filter (fun x => !seen.contains x) := by
  induction l with
  | nil => intro seen; simp [dedupFirstAux]
  | cons y ys ih =>
    rw [List.nodup_cons] at hnd
    intro seen
    by_cases hy : seen.contains y = true
    · rw [dedupFirstAux_cons_pos seen y ys hy, List.filter_cons, ih hnd.2 seen]
      rw [contains_iff_mem] at hy
      simp [hy]
    · rw [dedupFirstAux_cons_neg seen y ys hy, List.filter_cons, ih hnd.2 (y :: seen)]
      have hfix : ys.filter (fun x => !(y :: seen).contains x) =
          ys.filter (fun x => !seen.contains x) := by
        apply List.filter_congr
        intro x hx
        have hxy : ¬ x = y := fun h => hnd.1 (h ▸ hx)
        simp only [List.contains_cons]
        simp [hxy]
      rw [hfix]
      rw [contains_iff_mem] at hy
      simp [hy]

theorem dedupFirst_of_nodup (l : List String) (hnd : l.Nodup) : dedupFirst l = l := by
  rw [dedupFirst, dedupFirstAux_of_nodup l hnd]
  apply List.filter_eq_self.mpr
  intro a _
  simp

theorem dedupFirst_append_self (l : List String) (hnd : l.Nodup) :
    dedupFirst (l ++ l) = l := by
  rw [dedupFirst, dedupFirstAux_append l l [], ← dedupFirst, dedupFirst_of_nodup l hnd]
  rw [dedupFirstAux_of_nodup l hnd]
  have hnil : l.filter (fun x => !(l ++ []).contains x) = [] := by
    apply List.filter_eq_nil_iff.mpr
    intro a ha
    simp [contains_iff_mem, ha]
  rw [hnil, List.append_nil]

theorem buildStep_cons {α : Type} (h : String → Option α) (e : String × α)
    (ids : List String) (hne : ∀ id ∈ ids, id ≠ e.1) :
    ∀ acc, ids.foldl (buildStep h) (e :: acc) = e :: ids.foldl (buildStep h) acc := by
  induction ids with
  | nil => intro acc; rfl
  | cons i rest ih =>
    intro acc
    have hie : i ≠ e.1 := hne i (List.mem_cons_self _ _)
    have hrest : ∀ id ∈ rest, id ≠ e.1 := fun id hid => hne id (List.mem_cons_of_mem _ hid)
    rw [List.foldl_cons, List.foldl_cons]
    cases hh : h i with
    | none =>
      rw [show buildStep h (e :: acc) i = e :: acc by simp [buildStep, hh],
        show buildStep h acc i = acc by simp [buildStep, hh]]
      exact ih hrest acc
    | some v =>
      rw [show buildStep h (e :: acc) i = e :: alSet acc i v by
          simp [buildStep, hh, alSet_cons_of_ne e acc i v (fun hh1 => hie hh1.symm)],
        show buildStep h acc i = alSet acc i v by simp [buildStep, hh]]
      exact ih hrest (alSet acc i v)

theorem alLookup_foldl_buildStep {α : Type} (h : String → Option α) (ids : List String)
    (hnd : ids.Nodup) (k : String) :
    alLookup (ids.foldl (buildStep h) []) k = if k ∈ ids then h k else none := by
  induction ids with
  | nil => simp [alLookup]
  | cons i rest ih =>
    rw [List.nodup_cons] at hnd
    rw [List.foldl_cons]
    cases hh : h i with
    | none =>
      rw [show buildStep h [] i = [] by simp [buildStep, hh], ih hnd.2]
      by_cases hk : k = i
      · subst hk
        simp [hnd.1, hh]
      · simp [hk, Ne.symm hk]
    | some v =>
      rw [show buildStep h [] i = [(i, v)] by simp [buildStep, hh, alSet],
        buildStep_cons h (i, v) rest (fun id hid hide => hnd.1 ((show id = i from hide) ▸ hid)) [],
        alLookup_cons, ih hnd.2]
      by_cases hk : k = i
      · subst hk
        simp [hnd.1, hh]
      · simp [hk, Ne.symm hk]

theorem foldl_buildStep_nodupKeys {α : Type} (h : String → Option α) (ids : List String) :
    ∀ acc, (alKeys acc).Nodup → (alKeys (ids.foldl (buildStep h) acc)).Nodup := by
  induction ids with
  | nil => intro acc hacc; exact hacc
  | cons i rest ih =>
    intro acc hacc
    rw [List.foldl_cons]
    cases hh : h i with
    | none =>
      rw [show buildStep h acc i = acc by simp [buildStep, hh]]
      exact ih acc hacc
    | some v =>
      rw [show buildStep h acc i = alSet acc i v by simp [buildStep, hh]]
      exact ih _ (alKeys_alSet_nodup acc i v hacc)

theorem mergedFoodsMap_eq_build (parse : String → Option Int)
    (l r : List (String × FoodState)) :
    mergedFoodsMap parse l r =
      (dedupFirst (alKeys l ++ alKeys r)).foldl
        (buildStep (fun id =>
          match alLookup l id, alLookup r id with
          | none, some remoteFood => some remoteFood
          | some localFood, none => some localFood
          | some localFood, some remoteFood => some (mergeFoodState parse localFood remoteFood)
          | none, none => none)) [] := by
  simp only [mergedFoodsMap]
  congr 1
  funext acc id
  cases h1 : alLookup l id <;> cases h2 : alLookup r id <;> simp [buildStep, h1, h2]

theorem mergedFoodsMap_nodupKeys (parse : String → Option Int)
    (l r : List (String × FoodState)) : (alKeys (mergedFoodsMap parse l r)).Nodup := by
  rw [mergedFoodsMap_eq_build]
  exact foldl_buildStep_nodupKeys _ _ [] (by simp [alKeys])

theorem alLookup_mergedFoodsMap (parse : String → Option Int)
    (l r : List (String × FoodState)) (k : String) :
    alLookup (mergedFoodsMap parse l r) k =
      match alLookup l k, alLookup r k with
      | none, none => none
      | some localFood, none => some localFood
      | none, some remoteFood => some remoteFood
      | some localFood, some remoteFood => some (mergeFoodState parse localFood remoteFood) := by
  rw [mergedFoodsMap_eq_build, alLookup_foldl_buildStep _ _ (dedupFirst_nodup _)]
  by_cases hk : k ∈ dedupFirst (alKeys l ++ alKeys r)
  · rw [if_pos hk]
    cases h1 : alLookup l k <;> cases h2 : alLookup r k <;> simp [h1, h2]
  · rw [if_neg hk]
    rw [mem_dedupFirst, List.mem_append] at hk
    push_neg at hk
    have h1 : alLookup l k = none := by
      cases h : alLookup l k with
      | none => rfl
      | some v => exact absurd ((alLookup_isSome_iff_mem l k).mp (by simp [h])) hk.1
    have h2 : alLookup r k = none := by
      cases h : alLookup r k with
      | none => rfl
      | some v => exact absurd ((alLookup_isSome_iff_mem r k).mp (by simp [h])) hk.2
    simp [h1, h2]

theorem foldl_normSet_cons {α : Type} (f : α → α) (e : String × α)
    (l : List (String × α)) (hne : ∀ p ∈ l, p.1 ≠ e.1) :
    ∀ acc, l.foldl (fun acc p => alSet acc p.1 (f p.2)) (e :: acc) =
      e :: l.foldl (fun acc p => alSet acc p.1 (f p.2)) acc := by
  induction l with
  | nil => intro acc; rfl
  | cons p t ih =>
    intro acc
    have hpe : p.1 ≠ e.1 := hne p (List.mem_cons_self _ _)
    have ht : ∀ q ∈ t, q.1 ≠ e.1 := fun q hq => hne q (List.mem_cons_of_mem _ hq)
    rw [List.foldl_cons, List.foldl_cons,
      alSet_cons_of_ne e acc p.1 (f p.2) (fun hh => hpe hh.symm)]
    exact ih ht _

theorem foldl_normSet_eq_map {α : Type} (f : α → α) (l : List (String × α))
    (hnd : (alKeys l).Nodup) :
    l.foldl (fun acc p => alSet acc p.1 (f p.2)) [] = l.map (fun p => (p.1, f p.2)) := by
  induction l with
  | nil => rfl
  | cons p t ih =>
    rw [alKeys_cons, List.nodup_cons] at hnd
    have hne : ∀ q ∈ t, q.1 ≠ p.1 := by
      intro q hq he
      exact hnd.1 (he ▸ List.mem_map_of_mem (fun r => r.1) hq)
    rw [List.foldl_cons, show alSet [] p.1 (f p.2) = [(p.1, f p.2)] from rfl,
      foldl_normSet_cons f (p.1, f p.2) t hne [], ih hnd.2, List.map_cons]

theorem normalizeFoods_eq_map (l : List (String × FoodState))
    (hnd : (alKeys l).Nodup) :
    normalizeFoods l = l.map (fun p => (p.1, normalizeFoodState p.2)) :=
  foldl_normSet_eq_map normalizeFoodState l hnd

theorem alLookup_map {α β : Type} (f : α → β) (l : List (String × α)) (k : String) :
    alLookup (l.map (fun p => (p.1, f p.2))) k = (alLookup l k).map f := by
  induction l with
  | nil => simp [alLookup]
  | cons p t ih =>
    rw [List.map_cons, alLookup_cons, alLookup_cons]
    by_cases h : p.1 = k
    · simp [h]
    · simp [h, ih]

theorem mergeSnapshots_foods (parse : String → Option Int) (a b : ProfileSnapshot) :
    (mergeSnapshots parse a b).foods = normalizeFoods (mergedFoodsMap parse a.foods b.foods) :=
  rfl

theorem alLookup_mergeSnapshots_foods (parse : String → Option Int)
    (a b : ProfileSnapshot) (k : String) :
    alLookup (mergeSnapshots parse a b).foods k =
      (match alLookup a.foods k, alLookup b.foods k with
       | none, none => none
       | some localFood, none => some localFood
       | none, some remoteFood => some remoteFood
       | some localFood, some remoteFood =>
         some (mergeFoodState parse localFood remoteFood)).map normalizeFoodState := by
  rw [mergeSnapshots_foods,
    normalizeFoods_eq_map _ (mergedFoodsMap_nodupKeys parse a.foods b.foods),
    alLookup_map, alLookup_mergedFoodsMap]

theorem alLookup_self_of_mem {α : Type} (m : List (String × α)) (p : String × α)
    (hmem : p ∈ m) (hnd : (alKeys m).Nodup) : alLookup m p.1 = some p.2 := by
  induction m with
  | nil => simp at hmem
  | cons q t ih =>
    rw [alKeys_cons, List.nodup_cons] at hnd
    rw [alLookup_cons]
    rcases List.mem_cons.mp hmem with h | h
    · simp [h]
    · have hq : ¬ q.1 = p.1 := by
        intro hqe
        exact hnd.1 (hqe ▸ List.mem_map_of_mem (fun r => r.1) h)
      rw [if_neg hq]
      exact ih h hnd.2

theorem foldl_buildStep_keys_eq_map {α : Type} (g : α → α) (m : List (String × α))
    (h : String → Option α) (hnd : (alKeys m).Nodup)
    (hh : ∀ p ∈ m, h p.1 = some (g p.2)) :
    (alKeys m).foldl (buildStep h) [] = m.map (fun p => (p.1, g p.2)) := by
  induction m with
  | nil => rfl
  | cons p t ih =>
    rw [alKeys_cons, List.nodup_cons] at hnd
    have hne : ∀ id ∈ alKeys t, id ≠ p.1 := fun id hid he => hnd.1 (he ▸ hid)
    rw [alKeys_cons, List.foldl_cons,
      show buildStep h [] p.1 = [(p.1, g p.2)] by
        simp [buildStep, hh p (List.mem_cons_self p t), alSet],
      buildStep_cons h (p.1, g p.2) (alKeys t) hne [],
      ih hnd.2 (fun q hq => hh q (List.mem_cons_of_mem p hq)), List.map_cons]

theorem mergedFoodsMap_self (parse : String → Option Int)
    (m : List (String × FoodState)) (hnd : (alKeys m).Nodup) :
    mergedFoodsMap parse m m = m.map (fun p => (p.1, mergeFoodState parse p.2 p.2)) := by
  rw [mergedFoodsMap_eq_build, dedupFirst_append_self _ hnd]
  apply foldl_buildStep_keys_eq_map (fun f => mergeFoodState parse f f) m _ hnd
  intro p hp
  rw [alLookup_self_of_mem m p hp hnd]

theorem strOr_self (a : String) : strOr a a = a :=
  ite_self a

theorem alKeys_map {α β : Type} (f : α → β) (l : List (String × α)) :
    alKeys (l.map (fun p => (p.1, f p.2))) = alKeys l := by
  simp [alKeys, List.map_map, Function.comp]

theorem foldl_alSet_subset_eq {α : Type} (m : List (String × α))
    (hnd : (alKeys m).Nodup) :
    ∀ l : List (String × α), (∀ p ∈ l, p ∈ m) →
      l.foldl (fun acc p => alSet acc p.1 p.2) m = m := by
  intro l
  induction l with
  | nil => intro _; rfl
  | cons p t ih =>
    intro hsub
    rw [List.foldl_cons, alSet_eq_self_of_mem m p (hsub p (List.mem_cons_self p t)) hnd]
    exact ih (fun q hq => hsub q (List.mem_cons_of_mem p hq))

theorem alSpread_self_of_nodup {α : Type} (m : List (String × α))
    (hnd : (alKeys m).Nodup) : alSpread m m = m :=
  foldl_alSet_subset_eq m hnd m (fun _ hp => hp)

theorem foldl_nodup_of_step {β α : Type} (step : List (String × α) → β → List (String × α))
    (hstep : ∀ acc x, (alKeys acc).Nodup → (alKeys (step acc x)).Nodup) :
    ∀ (l : List β) (acc), (alKeys acc).Nodup → (alKeys (l.foldl step acc)).Nodup := by
  intro l
  induction l with
  | nil => intro acc h; exact h
  | cons x t ih =>
    intro acc h
    rw [List.foldl_cons]
    exact ih _ (hstep acc x h)

theorem normalizeCustomFoods_nodupKeys (x : Option (List (String × FoodSeed))) :
    (alKeys (normalizeCustomFoods x)).Nodup := by
  cases x with
  | none => simp [normalizeCustomFoods, alKeys]
  | some cf =>
    apply foldl_nodup_of_step _ _ cf [] (by simp [alKeys])
    intro acc p h
    dsimp only
    split
    · exact h
    · exact alKeys_alSet_nodup _ _ _ h

theorem normalizeFamilyOverrides_nodupKeys (x : Option (List (String × FamilyOverride))) :
    (alKeys (normalizeFamilyOverrides x)).Nodup := by
  cases x with
  | none => simp [normalizeFamilyOverrides, alKeys]
  | some ov =>
    apply foldl_nodup_of_step _ _ ov [] (by simp [alKeys])
    intro acc p h
    dsimp only
    split
    · exact h
    · exact alKeys_alSet_nodup _ _ _ h

theorem normalizeFamilyList_nodup (x : Option (List String)) :
    (normalizeFamilyList x).Nodup := by
  cases x with
  | none => simp [normalizeFamilyList]
  | some fs => exact dedupFirst_nodup _

/-- C5 (amended): merging a snapshot with itself returns it unchanged for
every snapshot in normal form (`SnapNormal`): food entries fixed by
the per-item self-merge normalization with unique keys, auxiliary
collections present and fixed by their normalizers, and the order
timestamp present.  (On non-normalized snapshots the merge field
defaults, deduplications and re-normalizations change the value, so
the claim fails as stated.) -/
theorem mergeSnapshots_self_of_normal (parse : String → Option Int) (S : ProfileSnapshot)
    (h : SnapNormal parse S) : mergeSnapshots parse S S = S := by
  obtain ⟨hnd, hfoods, hcf, hfam, hfo, hov, hmeta⟩ := h
  apply ProfileSnapshot.ext
  · rfl
  · rfl
  · exact strOr_self S.profileName
  · exact strOr_self S.shareCode
  · rfl
  · rfl
  · rfl
  · rfl
  · exact ite_self S.updatedAt
  · exact ite_self S.settings
  · show normalizeFoods (mergedFoodsMap parse S.foods S.foods) = S.foods
    rw [mergedFoodsMap_self parse S.foods hnd,
      normalizeFoods_eq_map _
        (by rw [alKeys_map (fun f => mergeFoodState parse f f) S.foods]; exact hnd),
      List.map_map]
    have hfix : ∀ p ∈ S.foods,
        ((fun p : String × FoodState => (p.1, normalizeFoodState p.2)) ∘
          (fun p : String × FoodState => (p.1, mergeFoodState parse p.2 p.2))) p = p := by
      intro p hp
      simp only [Function.comp]
      rw [hfoods p hp]
    rw [List.map_congr_left hfix]
    simp
  · show some (alSpread (normalizeCustomFoods S.customFoods) (normalizeCustomFoods S.customFoods)) =
      S.customFoods
    rw [alSpread_self_of_nodup _ (normalizeCustomFoods_nodupKeys S.customFoods)]
    exact hcf.symm
  · show some (dedupFirst (normalizeFamilyList S.customFamilies ++
      normalizeFamilyList S.customFamilies)) = S.customFamilies
    rw [dedupFirst_append_self _ (normalizeFamilyList_nodup S.customFamilies)]
    exact hfam.symm
  · show some
      (if (normalizeFamilyList S.familyOrder).length = 0 ∧
          0 < (normalizeFamilyList S.familyOrder).length then normalizeFamilyList S.familyOrder
       else if (normalizeFamilyList S.familyOrder).length = 0 ∧
          0 < (normalizeFamilyList S.familyOrder).length then normalizeFamilyList S.familyOrder
       else if jsGE (parse S.updatedAt) (parse S.updatedAt) then normalizeFamilyList S.familyOrder
       else normalizeFamilyList S.familyOrder) = S.familyOrder
    rw [if_neg (by omega), if_neg (by omega), ite_self]
    exact hfo.symm
  · show some (alSpread (normalizeFamilyOverrides S.familyOverrides)
      (normalizeFamilyOverrides S.familyOverrides)) = S.familyOverrides
    rw [alSpread_self_of_nodup _ (normalizeFamilyOverrides_nodupKeys S.familyOverrides)]
    exact hov.symm
  · exact ite_self S.order
  · apply SnapshotMeta.ext
    show some (if jsGE (parse (getOrderUpdatedAt S)) (parse (getOrderUpdatedAt S))
      then getOrderUpdatedAt S else getOrderUpdatedAt S) = S.meta.orderUpdatedAt
    rw [ite_self]
    exact hmeta.symm

theorem insertByTs_perm (parse : String → Option Int) (x : String) (l : List String) :
    (insertByTs parse x l).Perm (x :: l) := by
  induction l with
  | nil => exact List.Perm.refl _
  | cons y ys ih =>
    rw [insertByTs]
    split
    · exact (ih.cons y).trans (List.Perm.swap x y ys)
    · exact List.Perm.refl _

theorem sortByTs_perm (parse : String → Option Int) (l : List String) :
    (sortByTs parse l).Perm l := by
  induction l with
  | nil => exact List.Perm.refl _
  | cons x xs ih => exact (insertByTs_perm parse x (sortByTs parse xs)).trans (ih.cons x)

theorem pairwise_insertByTs (parse : String → Option Int) (x : String) (l : List String)
    (h : l.Pairwise (fun a b => expKey parse a ≤ expKey parse b)) :
    (insertByTs parse x l).Pairwise (fun a b => expKey parse a ≤ expKey parse b) := by
  induction l with
  | nil => simp [insertByTs]
  | cons y ys ih =>
    rw [List.pairwise_cons] at h
    rw [insertByTs]
    split
    · rw [List.pairwise_cons]
      refine ⟨fun z hz => ?_, ih h.2⟩
      rcases List.mem_cons.mp (((insertByTs_perm parse x ys).mem_iff).mp hz) with hzx | hzy
      · exact hzx ▸ le_of_lt (by assumption)
      · exact h.1 z hzy
    · rw [List.pairwise_cons]
      refine ⟨fun z hz => ?_, List.pairwise_cons.mpr h⟩
      rcases List.mem_cons.mp hz with hzy | hzys
      · exact hzy ▸ not_lt.mp (by assumption)
      · exact le_trans (not_lt.mp (by assumption)) (h.1 z hzys)

theorem sortByTs_pairwise (parse : String → Option Int) (l : List String) :
    (sortByTs parse l).Pairwise (fun a b => expKey parse a ≤ expKey parse b) := by
  induction l with
  | nil => simp [sortByTs]
  | cons x xs ih => exact pairwise_insertByTs parse x (sortByTs parse xs) ih

/-- C4: for both exposure lists handed to the item merge, the merged
exposure list is their union with empty entries dropped, deduplicated
(first occurrences), sorted ascending by parsed timestamp, and capped
at the oldest three; in particular `[t1,t2] ∪ [t3]` gives
`[t1,t2,t3]`, and `[t1,t2,t3] ∪ [t0]` with `t0` oldest gives
`[t0,t1,t2]`. -/
theorem mergeExposures_spec (parse : String → Option Int) :
    (∀ localFood remoteFood : FoodState,
      (mergeFoodState parse localFood remoteFood).exposures =
        mergeExposures parse localFood.exposures remoteFood.exposures) ∧
    (∀ l r, (mergeExposures parse l r).length ≤ 3) ∧
    (∀ l r, (mergeExposures parse l r).Pairwise
      (fun a b => expKey parse a ≤ expKey parse b)) ∧
    (∀ l r, (mergeExposures parse l r).Nodup) ∧
    (∀ t1 t2 t3 : String, t1 ≠ "" → t2 ≠ "" → t3 ≠ "" →
      expKey parse t1 < expKey parse t2 → expKey parse t2 < expKey parse t3 →
      mergeExposures parse [t1, t2] [t3] = [t1, t2, t3]) ∧
    (∀ t0 t1 t2 t3 : String, t0 ≠ "" → t1 ≠ "" → t2 ≠ "" → t3 ≠ "" →
      expKey parse t0 < expKey parse t1 → expKey parse t1 < expKey parse t2 →
      expKey parse t2 < expKey parse t3 →
      mergeExposures parse [t1, t2, t3] [t0] = [t0, t1, t2]) := by
  refine ⟨fun localFood remoteFood => rfl, fun l r => ?_, fun l r => ?_, fun l r => ?_,
    ?_, ?_⟩
  · simp [mergeExposures]
  · exact List.Pairwise.sublist (List.take_sublist 3 _) (sortByTs_pairwise parse _)
  · exact List.Nodup.sublist (List.take_sublist 3 _)
      (((sortByTs_perm parse _).nodup_iff).mpr (dedupFirst_nodup _))
  · intro t1 t2 t3 h1 h2 h3 h12 h23
    have ne12 : t1 ≠ t2 := fun he => lt_irrefl _ (he ▸ h12)
    have ne23 : t2 ≠ t3 := fun he => lt_irrefl _ (he ▸ h23)
    have ne13 : t1 ≠ t3 := fun he => lt_irrefl _ (he ▸ (h12.trans h23))
    have hfil : (([t1, t2] ++ [t3]).filter (fun s => s != "")) = [t1, t2, t3] := by
      simp [h1, h2, h3]
    have hdd : dedupFirst [t1, t2, t3] = [t1, t2, t3] :=
      dedupFirst_of_nodup _ (by simp [ne12, ne13, ne23])
    have s2 : insertByTs parse t2 [t3] = [t2, t3] := by
      rw [insertByTs, if_neg (not_lt.mpr h23.le)]
    have s3 : insertByTs parse t1 [t2, t3] = [t1, t2, t3] := by
      rw [insertByTs, if_neg (not_lt.mpr h12.le)]
    simp only [mergeExposures, hfil, hdd, sortByTs]
    rw [show insertByTs parse t3 ([] : List String) = [t3] from rfl, s2, s3]
    rfl
  · intro t0 t1 t2 t3 h0 h1 h2 h3 h01 h12 h23
    have ne01 : t0 ≠ t1 := fun he => lt_irrefl _ (he ▸ h01)
    have ne02 : t0 ≠ t2 := fun he => lt_irrefl _ (he ▸ (h01.trans h12))
    have ne03 : t0 ≠ t3 := fun he => lt_irrefl _ (he ▸ ((h01.trans h12).trans h23))
    have ne12 : t1 ≠ t2 := fun he => lt_irrefl _ (he ▸ h12)
    have ne13 : t1 ≠ t3 := fun he => lt_irrefl _ (he ▸ (h12.trans h23))
    have ne23 : t2 ≠ t3 := fun he => lt_irrefl _ (he ▸ h23)
    have hfil : (([t1, t2, t3] ++ [t0]).filter (fun s => s != "")) = [t1, t2, t3, t0] := by
      simp [h0, h1, h2, h3]
    have hdd : dedupFirst [t1, t2, t3, t0] = [t1, t2, t3, t0] :=
      dedupFirst_of_nodup _
        (by simp [ne12, ne13, ne23, Ne.symm ne01, Ne.symm ne02, Ne.symm ne03])
    have s1 : insertByTs parse t3 [t0] = [t0, t3] := by
      rw [insertByTs, if_pos ((h01.trans h12).trans h23)]
      rfl
    have s2 : insertByTs parse t2 [t0, t3] = [t0, t2, t3] := by
      rw [insertByTs, if_pos (h01.trans h12), insertByTs, if_neg (not_lt.mpr h23.le)]
    have s3 : insertByTs parse t1 [t0, t2, t3] = [t0, t1, t2, t3] := by
      rw [insertByTs, if_pos h01, insertByTs, if_neg (not_lt.mpr h12.le)]
    simp only [mergeExposures, hfil, hdd, sortByTs]
    rw [show insertByTs parse t0 ([] : List String) = [t0] from rfl, s1, s2, s3]
    rfl

theorem mergeExposures_spec_witness :
    mergeExposures lenParse ["a", "bb"] ["ccc"] = ["a", "bb", "ccc"] ∧
    mergeExposures lenParse ["bb", "ccc", "dddd"] ["a"] = ["a", "bb", "ccc"] :=
  ⟨(mergeExposures_spec lenParse).2.2.2.2.1 "a" "bb" "ccc" (by decide) (by decide)
      (by decide) (by decide) (by decide),
    (mergeExposures_spec lenParse).2.2.2.2.2 "a" "bb" "ccc" "dddd" (by decide) (by decide)
      (by decide) (by decide) (by decide) (by decide) (by decide)⟩

theorem mergeSnapshots_self_counterexample :
    mergeSnapshots lenParse dupSnap dupSnap ≠ dupSnap := by decide

theorem mergeSnapshots_self_witness :
    SnapNormal lenParse wSnap ∧ mergeSnapshots lenParse wSnap wSnap = wSnap :=
  ⟨by decide, mergeSnapshots_self_of_normal lenParse wSnap (by decide)⟩

/-- C6: when the two snapshots' item maps have disjoint key sets,
merging in either order yields the same item map (same ids bound to
the same item states). -/
theorem merge_comm_on_disjoint_items (parse : String → Option Int)
    (a b : ProfileSnapshot)
    (hdisj : ∀ id, alLookup a.foods id = none ∨ alLookup b.foods id = none) :
    ∀ id, alLookup (mergeSnapshots parse a b).foods id =
      alLookup (mergeSnapshots parse b a).foods id := by
  intro id
  rw [alLookup_mergeSnapshots_foods, alLookup_mergeSnapshots_foods]
  rcases hdisj id with h | h
  · rw [h]
    cases h2 : alLookup b.foods id <;> simp
  · rw [h]
    cases h2 : alLookup a.foods id <;> simp [h2]

theorem merge_comm_on_disjoint_items_witness :
    alLookup (mergeSnapshots lenParse wSnap wSnapB).foods "apple" =
      alLookup (mergeSnapshots lenParse wSnapB wSnap).foods "apple" := by
  have hdisj : ∀ id, alLookup wSnap.foods id = none ∨ alLookup wSnapB.foods id = none := by
    intro id
    by_cases h : id = "apple"
    · right
      subst h
      decide
    · left
      simp only [wSnap, alLookup_cons]
      rw [if_neg (fun hh => h hh.symm)]
      rfl
  exact merge_comm_on_disjoint_items lenParse wSnap wSnapB hdisj "apple"

/-- C10 (amended): every item id present in either input is present in
the merged item map, and ids are never dropped; an id present on only
one side is taken from that side up to the field normalization
`normalizeFoodState` (optional fields defaulted, legacy AI content
lifted) that the merge applies to every entry — in particular it is
taken unchanged whenever that entry is already normalized.  (The
normalization is why the claim's "unchanged" fails as stated.) -/
theorem merge_never_removes_items (parse : String → Option Int)
    (a b : ProfileSnapshot) (id : String) :
    ((alLookup (mergeSnapshots parse a b).foods id).isSome =
      ((alLookup a.foods id).isSome || (alLookup b.foods id).isSome)) ∧
    (∀ f, alLookup a.foods id = some f → alLookup b.foods id = none →
      alLookup (mergeSnapshots parse a b).foods id = some (normalizeFoodState f)) ∧
    (∀ f, alLookup b.foods id = some f → alLookup a.foods id = none →
      alLookup (mergeSnapshots parse a b).foods id = some (normalizeFoodState f)) ∧
    (∀ f, alLookup a.foods id = some f → alLookup b.foods id = none →
      normalizeFoodState f = f →
      alLookup (mergeSnapshots parse a b).foods id = some f) := by
  refine ⟨?_, ?_, ?_, ?_⟩
  · rw [alLookup_mergeSnapshots_foods]
    cases h1 : alLookup a.foods id <;> cases h2 : alLookup b.foods id <;> simp [h1, h2]
  · intro f hf hb
    rw [alLookup_mergeSnapshots_foods, hf, hb]
    rfl
  · intro f hf ha
    rw [alLookup_mergeSnapshots_foods, hf, ha]
    rfl
  · intro f hf hb hfix
    rw [alLookup_mergeSnapshots_foods, hf, hb]
    simp [hfix]

theorem merge_never_removes_items_witness :
    alLookup (mergeSnapshots lenParse wSnap emptySnap).foods "apple" =
      some (normalizeFoodState wFood) ∧
    alLookup (mergeSnapshots lenParse wSnap emptySnap).foods "apple" = some wFood :=
  ⟨(merge_never_removes_items lenParse wSnap emptySnap "apple").2.1 wFood (by decide)
      (by decide),
    (merge_never_removes_items lenParse wSnap emptySnap "apple").2.2.2 wFood (by decide)
      (by decide) (by decide)⟩

theorem merge_never_removes_items_counterexample :
    alLookup looseSnap.foods "pear" = some looseFood ∧
    alLookup emptySnap.foods "pear" = none ∧
    (alLookup (mergeSnapshots lenParse looseSnap emptySnap).foods "pear").isSome = true ∧
    alLookup (mergeSnapshots lenParse looseSnap emptySnap).foods "pear" ≠ some looseFood := by
  refine ⟨by decide, by decide, by decide, by decide⟩

/-- C8: for an item present on both sides where side A carries the newer
`updatedAt` but the older `descriptionGeneratedAt` and side B the
opposite, the merged item takes A's non-AI fields (id, hidden flag,
notes, updatedAt) and B's AI-content group (description, reactions,
generation timestamp, model) — in either argument order, since the AI
sub-group is selected by its own timestamp comparison. -/
theorem merge_field_group_independence (parse : String → Option Int) (a b : FoodState)
    (hU : toTimestamp parse (some b.updatedAt) < toTimestamp parse (some a.updatedAt))
    (hA : toTimestamp parse a.descriptionGeneratedAt <
      toTimestamp parse b.descriptionGeneratedAt) :
    ((mergeFoodState parse a b).foodId = a.foodId ∧
      (mergeFoodState parse a b).isHidden = a.isHidden ∧
      (mergeFoodState parse a b).notes = a.notes ∧
      (mergeFoodState parse a b).updatedAt = strOr a.updatedAt b.updatedAt ∧
      (mergeFoodState parse a b).description = some (b.description.getD "") ∧
      (mergeFoodState parse a b).reactions = some (b.reactions.getD "") ∧
      (mergeFoodState parse a b).descriptionGeneratedAt =
        some (b.descriptionGeneratedAt.getD "") ∧
      (mergeFoodState parse a b).descriptionModel = some (b.descriptionModel.getD "")) ∧
    ((mergeFoodState parse b a).foodId = a.foodId ∧
      (mergeFoodState parse b a).isHidden = a.isHidden ∧
      (mergeFoodState parse b a).notes = a.notes ∧
      (mergeFoodState parse b a).updatedAt = strOr a.updatedAt b.updatedAt ∧
      (mergeFoodState parse b a).description = some (b.description.getD "") ∧
      (mergeFoodState parse b a).reactions = some (b.reactions.getD "") ∧
      (mergeFoodState parse b a).descriptionGeneratedAt =
        some (b.descriptionGeneratedAt.getD "") ∧
      (mergeFoodState parse b a).descriptionModel = some (b.descriptionModel.getD "")) := by
  constructor
  · have hite1 : (if toTimestamp parse (some b.updatedAt) ≤
        toTimestamp parse (some a.updatedAt) then a else b) = a := if_pos hU.le
    have hite2 : (if toTimestamp parse (some b.updatedAt) ≤
        toTimestamp parse (some a.updatedAt) then b else a) = b := if_pos hU.le
    simp only [mergeFoodState, hite1, hite2]
    rw [if_neg (not_le.mpr hA), if_pos hU.le]
    simp
  · have hite1 : (if toTimestamp parse (some a.updatedAt) ≤
        toTimestamp parse (some b.updatedAt) then b else a) = a :=
      if_neg (not_le.mpr hU)
    have hite2 : (if toTimestamp parse (some a.updatedAt) ≤
        toTimestamp parse (some b.updatedAt) then a else b) = b :=
      if_neg (not_le.mpr hU)
    simp only [mergeFoodState, hite1, hite2]
    rw [if_neg (not_le.mpr hA), if_neg (not_le.mpr hU)]
    simp

theorem merge_field_group_independence_witness :
    (mergeFoodState lenParse w8a w8b).notes = w8a.notes ∧
    (mergeFoodState lenParse w8a w8b).description = some (w8b.description.getD "") ∧
    (mergeFoodState lenParse w8b w8a).notes = w8a.notes ∧
    (mergeFoodState lenParse w8b w8a).description = some (w8b.description.getD "") := by
  have h := merge_field_group_independence lenParse w8a w8b (by decide) (by decide)
  exact ⟨h.1.2.2.1, h.1.2.2.2.2.1, h.2.2.2.1, h.2.2.2.2.2.1⟩

theorem isValidToken_getD_ne (o : Option String) (h : isValidToken o = true) :
    o.getD "" ≠ "" := by
  cases o with
  | none => simp [isValidToken] at h
  | some s =>
    simp only [isValidToken, Bool.and_eq_true, decide_eq_true_eq] at h
    simpa using h.1

theorem isValidSnapshot_not_falsy (o : Option Json) (h : isValidSnapshot o = true) :
    (o.getD Json.null).isFalsy = false := by
  cases o with
  | none => simp [isValidSnapshot] at h
  | some j => cases j <;> simp_all [isValidSnapshot, Json.isFalsy]

theorem JsonMap.lookup_set : ∀ (m : JsonMap) (k k' : String) (v : Json),
    (m.set k v).lookup k' = if k = k' then some v else m.lookup k'
  | .nil, k, k', v => by
    by_cases h : k = k' <;> simp [JsonMap.set, JsonMap.lookup, h]
  | .cons q w t, k, k', v => by
    by_cases hq : q = k
    · rw [show (JsonMap.cons q w t).set k v = .cons k v t by simp [JsonMap.set, hq]]
      by_cases h : k = k'
      · simp [JsonMap.lookup, h]
      · have hq' : ¬ q = k' := fun he => h (hq.symm.trans he)
        simp [JsonMap.lookup, h, hq']
    · rw [show (JsonMap.cons q w t).set k v = .cons q w (t.set k v) by
        simp [JsonMap.set, hq]]
      by_cases h : q = k'
      · have hk : ¬ k = k' := fun he => hq ((he.trans h.symm).symm)
        simp [JsonMap.lookup, h, hk]
      · simp [JsonMap.lookup, h, JsonMap.lookup_set t k k' v]

theorem sanitizeFoodsMap_lookup (now : String) : ∀ (m m' : JsonMap),
    sanitizeFoodsMap now m = some m' → ∀ k : String,
      m'.lookup k = (m.lookup k).bind (sanitizeFood now)
  | .nil, m', h, k => by
    simp only [sanitizeFoodsMap, Option.some.injEq] at h
    subst h
    simp [JsonMap.lookup]
  | .cons q w t, m', h, k => by
    simp only [sanitizeFoodsMap] at h
    cases hv : sanitizeFood now w with
    | none => rw [hv] at h; simp at h
    | some v' =>
      cases ht : sanitizeFoodsMap now t with
      | none => rw [hv, ht] at h; simp at h
      | some t' =>
        rw [hv, ht] at h
        simp only [Option.some.injEq] at h
        subst h
        by_cases hqk : q = k
        · simp [JsonMap.lookup, hqk, hv]
        · simp only [JsonMap.lookup, if_neg hqk]
          exact sanitizeFoodsMap_lookup now t t' ht k

theorem jsonGet_setField_ne (x : Json) (k k' : String) (v : Json) (hne : k ≠ k') :
    jsonGet (x.setField k v) k' = jsonGet x k' := by
  cases x <;> simp [Json.setField, jsonGet, JsonMap.lookup_set, hne]

theorem sanitizeSnapshotImages_foods_inv (now : String) (j s : Json) (fm : JsonMap)
    (hfm : jsonGet j "foods" = some (.obj fm))
    (hs : sanitizeSnapshotImages now j = some s) :
    ∃ fm', sanitizeFoodsMap now fm = some fm' ∧ jsonGet s "foods" = some (.obj fm') := by
  cases j with
  | obj m =>
    simp only [sanitizeSnapshotImages, hfm] at hs
    cases hsm : sanitizeFoodsMap now fm with
    | none => rw [hsm] at hs; simp at hs
    | some fm' =>
      rw [hsm] at hs
      simp only [Option.map_some', Option.some.injEq] at hs
      refine ⟨fm', rfl, ?_⟩
      rw [← hs, jsonGet_setField_ne _ _ _ _ (by decide)]
      simp [Json.setField, jsonGet, JsonMap.lookup_set]
  | null => simp [jsonGet] at hfm
  | bool b => simp [jsonGet] at hfm
  | num n => simp [jsonGet] at hfm
  | str s => simp [jsonGet] at hfm
  | arr l => simp [jsonGet] at hfm

theorem findRow_append_of_none (store : Store) (sc pid : String) (r : StorageRow)
    (h : findRow store sc pid = none) (h1 : r.shareCode = sc) (h2 : r.profileId = pid) :
    findRow (store ++ [r]) sc pid = some r := by
  induction store with
  | nil => simp [findRow, List.find?, h1, h2]
  | cons q t ih =>
    rw [findRow, List.find?_cons] at h
    rw [findRow, List.cons_append, List.find?_cons]
    cases hq : (q.shareCode == sc && q.profileId == pid) with
    | true => rw [hq] at h; simp at h
    | false =>
      rw [hq] at h
      exact ih h

theorem findRow_updateRow (store : Store) (sc pid : String) (row : StorageRow)
    (h : findRow store sc pid = some row) (snap : Json) (rev : Int) (now : String) :
    findRow (updateRow store sc pid snap rev now) sc pid =
      some { row with snapshot := snap, revision := rev, updatedAt := now } := by
  induction store with
  | nil => simp [findRow, List.find?] at h
  | cons q t ih =>
    rw [findRow, List.find?_cons] at h
    rw [updateRow, List.map_cons]
    by_cases hq : (q.shareCode == sc && q.profileId == pid) = true
    · rw [hq] at h
      simp only [Option.some.injEq] at h
      subst h
      rw [if_pos hq, findRow, List.find?_cons]
      have hq' : ((({ q with snapshot := snap, revision := rev, updatedAt := now } :
          StorageRow).shareCode == sc) &&
          (({ q with snapshot := snap, revision := rev, updatedAt := now } :
            StorageRow).profileId == pid)) = true := hq
      rw [hq']
    · rw [Bool.not_eq_true] at hq
      rw [hq] at h
      rw [if_neg (by simp [hq]), findRow, List.find?_cons, hq]
      exact ih h

theorem pushHandler_accepted_inv (now : String) (store : Store) (body : PushBody)
    (snap : Json) (rev : Int) (store' : Store)
    (h : pushHandler now store body = (.accepted snap rev, store')) :
    (∃ s, sanitizeSnapshotImages now (body.snapshot.getD .null) = some s ∧
      snap = (s.setField "revision" (.num rev)).setField "updatedAt" (.str now)) ∧
    (rev = match findRow store (body.shareCode.getD "") (body.profileId.getD "") with
      | none => 1
      | some row => row.revision + 1) ∧
    ∃ row', findRow store' (body.shareCode.getD "") (body.profileId.getD "") = some row' ∧
      row'.snapshot = snap ∧ row'.revision = rev := by
  unfold pushHandler at h
  split at h
  · simp at h
  split at h
  · simp at h
  split at h
  · simp at h
  next baseRevision hbr =>
    split at h
    · simp at h
    dsimp only [] at h
    split at h
    · simp at h
    next hreq =>
      split at h
      · simp at h
      next s hsan =>
        split at h
        next hrow =>
          simp only [Prod.mk.injEq, PushResult.accepted.injEq] at h
          obtain ⟨⟨hsnap, hrev⟩, hstore⟩ := h
          subst hsnap
          subst hrev
          refine ⟨⟨s, hsan, rfl⟩, rfl, ?_⟩
          exact ⟨_, by rw [← hstore]; exact findRow_append_of_none store _ _ _ hrow rfl rfl,
            rfl, rfl⟩
        next existing hrow =>
          split at h
          · simp at h
          next hne =>
            simp only [Prod.mk.injEq, PushResult.accepted.injEq] at h
            obtain ⟨⟨hsnap, hrev⟩, hstore⟩ := h
            subst hsnap
            subst hrev
            refine ⟨⟨s, hsan, rfl⟩, rfl, ?_⟩
            exact ⟨_,
              (by rw [← hstore]; exact findRow_updateRow store _ _ existing hrow _ _ now),
              rfl, rfl⟩

/-- C1 (amended): a valid push against an existing row whose
`baseRevision` differs from the stored revision R, and whose snapshot
survives the sanitization pass (no `null` food entry to throw on),
returns Conflict carrying exactly the stored snapshot and R, and
leaves the store unchanged.  (A snapshot with a `null` food entry
passes validation but makes the handler throw before the revision
comparison, so the claim fails as stated.) -/
theorem push_conflict_returns_stored (now : String) (store : Store) (body : PushBody)
    (baseRevision : Int) (sanitized : Json) (row : StorageRow)
    (htok1 : isValidToken body.shareCode = true)
    (htok2 : isValidToken body.profileId = true)
    (hsnap : isValidSnapshot body.snapshot = true)
    (hbr : body.baseRevision = some baseRevision)
    (hpos : 0 ≤ baseRevision)
    (hsan : sanitizeSnapshotImages now (body.snapshot.getD .null) = some sanitized)
    (hrow : findRow store (body.shareCode.getD "") (body.profileId.getD "") = some row)
    (hne : baseRevision ≠ row.revision) :
    pushHandler now store body = (.conflict row.snapshot row.revision, store) := by
  unfold pushHandler
  split
  next hguard =>
    rw [htok1, htok2] at hguard
    simp at hguard
  next =>
    split
    next hg =>
      rw [hsnap] at hg
      simp at hg
    next =>
      split
      next hbrn =>
        rw [hbr] at hbrn
        simp at hbrn
      next br hbrs =>
        rw [hbr] at hbrs
        injection hbrs with hb
        subst hb
        split
        next hneg => exact absurd hneg (not_lt.mpr hpos)
        next =>
          dsimp only
          split
          next hreq =>
            rcases hreq with hx | hx | hx
            · exact absurd hx (isValidToken_getD_ne _ htok1)
            · exact absurd hx (isValidToken_getD_ne _ htok2)
            · rw [isValidSnapshot_not_falsy _ hsnap] at hx
              simp at hx
          next =>
            split
            next hsn =>
              rw [hsan] at hsn
              simp at hsn
            next s hsn =>
              split
              next hrn =>
                rw [hrow] at hrn
                simp at hrn
              next existing hr =>
                rw [hrow] at hr
                injection hr with he
                subst he
                split
                next => rfl
                next hnn => exact absurd hne (by simpa using hnn)

theorem push_conflict_returns_stored_witness :
    pushHandler "T" [cRow] cBody = (.conflict (.obj (.cons "foods" (.obj .nil) .nil)) 5,
      [cRow]) :=
  push_conflict_returns_stored "T" [cRow] cBody 3 wSanitizedSnap cRow (by decide)
    (by decide) (by decide) rfl (by decide) (by decide) (by decide) (by decide)

theorem push_conflict_returns_stored_counterexample :
    isValidToken nullFoodBody.shareCode = true ∧
    isValidToken nullFoodBody.profileId = true ∧
    isValidSnapshot nullFoodBody.snapshot = true ∧
    nullFoodBody.baseRevision = some 3 ∧
    findRow [cRow] (nullFoodBody.shareCode.getD "") (nullFoodBody.profileId.getD "") =
      some cRow ∧
    (3 : Int) ≠ cRow.revision ∧
    pushHandler "T" [cRow] nullFoodBody = (.fault, [cRow]) := by
  refine ⟨by decide, by decide, by decide, by decide, by decide, by decide, by decide⟩

/-- C2: on every accepted push the stored revision is 1 when the row did
not exist, and the previous stored revision plus one when it did; the
accepted revision is written back to the row together with the
returned snapshot, so revisions never decrease and never skip. -/
theorem push_revision_step (now : String) (store : Store) (body : PushBody)
    (snap : Json) (rev : Int) (store' : Store)
    (h : pushHandler now store body = (.accepted snap rev, store')) :
    (rev = match findRow store (body.shareCode.getD "") (body.profileId.getD "") with
      | none => 1
      | some row => row.revision + 1) ∧
    ∃ row', findRow store' (body.shareCode.getD "") (body.profileId.getD "") = some row' ∧
      row'.revision = rev ∧ row'.snapshot = snap := by
  obtain ⟨_, h2, row', h3, h4, h5⟩ := pushHandler_accepted_inv now store body snap rev store' h
  exact ⟨h2, row', h3, h5, h4⟩

theorem push_revision_step_witness :
    (1 = match findRow [] (wBody.shareCode.getD "") (wBody.profileId.getD "") with
      | none => 1
      | some row => row.revision + 1) ∧
    ∃ row', findRow [wRow] (wBody.shareCode.getD "") (wBody.profileId.getD "") = some row' ∧
      row'.revision = 1 ∧ row'.snapshot = wRow.snapshot :=
  push_revision_step "T" [] wBody wRow.snapshot 1 [wRow] (by decide)

/-- C3 (amended): a valid push to a (shareCode, profileId) pair with no
stored row, whose snapshot survives the sanitization pass, is a
creation: whatever the non-negative `baseRevision`, the result is
Accepted with revision 1 and the sanitized snapshot is appended to the
store with revision 1.  (A snapshot with a `null` food entry passes
validation but makes the handler throw inside the sanitizer instead,
so the claim fails as stated.) -/
theorem push_creation_revision_one (now : String) (store : Store) (body : PushBody)
    (baseRevision : Int) (sanitized : Json)
    (htok1 : isValidToken body.shareCode = true)
    (htok2 : isValidToken body.profileId = true)
    (hsnap : isValidSnapshot body.snapshot = true)
    (hbr : body.baseRevision = some baseRevision)
    (hpos : 0 ≤ baseRevision)
    (hsan : sanitizeSnapshotImages now (body.snapshot.getD .null) = some sanitized)
    (hrow : findRow store (body.shareCode.getD "") (body.profileId.getD "") = none) :
    pushHandler now store body =
      (.accepted ((sanitized.setField "revision" (.num 1)).setField "updatedAt"
        (.str now)) 1,
        store ++ [StorageRow.mk (body.shareCode.getD "") (body.profileId.getD "")
          ((sanitized.setField "revision" (.num 1)).setField "updatedAt" (.str now))
          1 now]) := by
  unfold pushHandler
  split
  next hguard =>
    rw [htok1, htok2] at hguard
    simp at hguard
  next =>
    split
    next hg =>
      rw [hsnap] at hg
      simp at hg
    next =>
      split
      next hbrn =>
        rw [hbr] at hbrn
        simp at hbrn
      next br hbrs =>
        rw [hbr] at hbrs
        injection hbrs with hb
        subst hb
        split
        next hneg => exact absurd hneg (not_lt.mpr hpos)
        next =>
          dsimp only
          split
          next hreq =>
            rcases hreq with hx | hx | hx
            · exact absurd hx (isValidToken_getD_ne _ htok1)
            · exact absurd hx (isValidToken_getD_ne _ htok2)
            · rw [isValidSnapshot_not_falsy _ hsnap] at hx
              simp at hx
          next =>
            split
            next hsn =>
              rw [hsan] at hsn
              simp at hsn
            next s hsn =>
              rw [hsan] at hsn
              injection hsn with hseq
              subst hseq
              split
              next => rfl
              next existing hr =>
                rw [hrow] at hr
                simp at hr

theorem push_creation_revision_one_witness :
    pushHandler "T" [] cBody =
      (.accepted ((wSanitizedSnap.setField "revision" (.num 1)).setField "updatedAt"
        (.str "T")) 1,
        [] ++ [StorageRow.mk (cBody.shareCode.getD "") (cBody.profileId.getD "")
          ((wSanitizedSnap.setField "revision" (.num 1)).setField "updatedAt" (.str "T"))
          1 "T"]) :=
  push_creation_revision_one "T" [] cBody 3 wSanitizedSnap (by decide) (by decide)
    (by decide) rfl (by decide) (by decide) (by decide)

theorem push_creation_revision_one_counterexample :
    isValidToken nullFoodBody.shareCode = true ∧
    isValidToken nullFoodBody.profileId = true ∧
    isValidSnapshot nullFoodBody.snapshot = true ∧
    nullFoodBody.baseRevision = some 3 ∧
    findRow [] (nullFoodBody.shareCode.getD "") (nullFoodBody.profileId.getD "") = none ∧
    pushHandler "T" [] nullFoodBody = (.fault, []) := by
  refine ⟨by decide, by decide, by decide, by decide, by decide, by decide⟩

theorem stringify_arr_pair (j : Json) :
    (Json.arr (.cons j (.cons j .nil))).stringify.length = 2 * j.stringify.length + 3 := by
  simp only [Json.stringify, JsonList.stringifyElems, String.length_append]
  rw [show ("[" : String).length = 1 from rfl, show ("," : String).length = 1 from rfl,
    show ("]" : String).length = 1 from rfl]
  omega

theorem bigJson_length (n : Nat) : (bigJson n).stringify.length = 6 * 2 ^ n - 3 := by
  induction n with
  | zero => rfl
  | succ n ih =>
    rw [show bigJson (n + 1) = Json.arr (.cons (bigJson n) (.cons (bigJson n) .nil))
        from rfl,
      stringify_arr_pair, ih, pow_succ]
    have h2 : 1 ≤ 2 ^ n := Nat.one_le_two_pow
    omega

/-- C7: a push whose snapshot serializes past the 1,000,000-character
ceiling is rejected with a validation error before any store access,
leaving storage untouched. -/
theorem push_oversized_rejected (now : String) (store : Store) (body : PushBody)
    (j : Json) (hj : body.snapshot = some j)
    (hbig : 1000000 < j.stringify.length) :
    (pushHandler now store body).1.isError = true ∧
      (pushHandler now store body).2 = store := by
  have hsnap : isValidSnapshot body.snapshot = false := by
    rw [hj]
    cases j with
    | obj m =>
      simp only [isValidSnapshot, decide_eq_false_iff_not, not_le]
      exact hbig
    | null => rfl
    | bool b => rfl
    | num n => rfl
    | str s => rfl
    | arr l => rfl
  unfold pushHandler
  split
  next => exact ⟨rfl, rfl⟩
  next =>
    split
    next => exact ⟨rfl, rfl⟩
    next hg =>
      rw [hsnap] at hg
      simp at hg

theorem stringify_obj_single (k : String) (v : Json) :
    (Json.obj (.cons k v .nil)).stringify.length =
      (quoteJson k).length + v.stringify.length + 3 := by
  simp only [Json.stringify, JsonMap.stringifyFields, String.length_append]
  rw [show ("\x7b" : String).length = 1 from rfl,
    show ("\x7d" : String).length = 1 from rfl,
    show (":" : String).length = 1 from rfl]
  omega

theorem push_oversized_rejected_witness :
    (pushHandler "T" [] bigBody).1.isError = true ∧
      (pushHandler "T" [] bigBody).2 = [] := by
  apply push_oversized_rejected "T" [] bigBody (.obj (.cons "foods" (bigJson 18) .nil)) rfl
  show 1000000 < (Json.obj (.cons "foods" (bigJson 18) .nil)).stringify.length
  rw [stringify_obj_single, bigJson_length,
    show (quoteJson "foods").length = 7 from rfl]
  norm_num

theorem clearedImageGroup_lookup (now : String) (m2 : JsonMap) :
    (clearedImageGroup now m2).lookup "customImageUrl" = some (.str "") ∧
    (clearedImageGroup now m2).lookup "customImageAttribution" = some (.str "") ∧
    (clearedImageGroup now m2).lookup "customImageAttributionUrl" = some (.str "") ∧
    (clearedImageGroup now m2).lookup "imageSource" = some (.str "") ∧
    (clearedImageGroup now m2).lookup "imageGeneratedAt" = some (.str "") := by
  refine ⟨?_, ?_, ?_, ?_, ?_⟩ <;> simp [clearedImageGroup, JsonMap.lookup_set]

theorem sanitizeFoodObj_clears (now : String) (food : JsonMap)
    (hurl : ¬ jsTrim (jsStr (food.lookup "customImageUrl")) = "")
    (hclear : shouldClearManualImage
      ((sanitizeFoodObj now food).lookup "customImageAttribution") = true) :
    (sanitizeFoodObj now food).lookup "customImageUrl" = some (.str "") ∧
    (sanitizeFoodObj now food).lookup "customImageAttribution" = some (.str "") ∧
    (sanitizeFoodObj now food).lookup "customImageAttributionUrl" = some (.str "") ∧
    (sanitizeFoodObj now food).lookup "imageSource" = some (.str "") ∧
    (sanitizeFoodObj now food).lookup "imageGeneratedAt" = some (.str "") := by
  simp only [sanitizeFoodObj] at hclear ⊢
  rw [if_neg hurl] at hclear ⊢
  by_cases hc : shouldClearManualImage
      ((foodAfterBackfill food).lookup "customImageAttribution") = true
  · rw [if_neg (by simp [hc])] at hclear ⊢
    exact clearedImageGroup_lookup now _
  · rw [Bool.not_eq_true] at hc
    rw [if_pos (by simp [hc])] at hclear
    exact absurd hclear (by simp [hc])

/-- C9 (amended): on every accepted push, for every item of the submitted
snapshot that the sanitizer treats as carrying a custom image
(non-blank `customImageUrl`): if after the attribution normalization
pass the item's attribution string is still empty, the entire
custom-image field group (url, attribution, attribution-url, source,
generated-at) of that item is cleared in the stored snapshot.  (Items
whose `customImageUrl` is blank are skipped by the sanitizer, so a
stale `imageSource` on such an item survives — which is why the claim
fails as stated.) -/
theorem sanitize_clears_image_group (now : String) (store : Store) (body : PushBody)
    (snap : Json) (rev : Int) (store' : Store) (j : Json) (fm food : JsonMap) (id : String)
    (h : pushHandler now store body = (.accepted snap rev, store'))
    (hj : body.snapshot = some j)
    (hfm : jsonGet j "foods" = some (.obj fm))
    (hfood : fm.lookup id = some (.obj food))
    (hurl : ¬ jsTrim (jsStr (food.lookup "customImageUrl")) = "")
    (hclear : shouldClearManualImage
      ((sanitizeFoodObj now food).lookup "customImageAttribution") = true) :
    (∃ fm', sanitizeFoodsMap now fm = some fm' ∧
      jsonGet snap "foods" = some (.obj fm') ∧
      fm'.lookup id = some (.obj (sanitizeFoodObj now food))) ∧
    (sanitizeFoodObj now food).lookup "customImageUrl" = some (.str "") ∧
    (sanitizeFoodObj now food).lookup "customImageAttribution" = some (.str "") ∧
    (sanitizeFoodObj now food).lookup "customImageAttributionUrl" = some (.str "") ∧
    (sanitizeFoodObj now food).lookup "imageSource" = some (.str "") ∧
    (sanitizeFoodObj now food).lookup "imageGeneratedAt" = some (.str "") := by
  obtain ⟨⟨s, hsan, hsnap⟩, -, -⟩ := pushHandler_accepted_inv now store body snap rev store' h
  obtain ⟨h1, h2, h3, h4, h5⟩ := sanitizeFoodObj_clears now food hurl hclear
  rw [hj] at hsan
  obtain ⟨fm', hsm, hget⟩ := sanitizeSnapshotImages_foods_inv now j s fm hfm hsan
  refine ⟨⟨fm', hsm, ?_, ?_⟩, h1, h2, h3, h4, h5⟩
  · rw [hsnap, jsonGet_setField_ne _ _ _ _ (by decide),
      jsonGet_setField_ne _ _ _ _ (by decide)]
    exact hget
  · rw [sanitizeFoodsMap_lookup now fm fm' hsm id, hfood]
    rfl

theorem sanitize_clears_image_group_witness :
    (∃ fm', sanitizeFoodsMap "T" (.cons "x" (.obj clearableFood) .nil) = some fm' ∧
      jsonGet wClearSnap "foods" = some (.obj fm') ∧
      fm'.lookup "x" = some (.obj (sanitizeFoodObj "T" clearableFood))) ∧
    (sanitizeFoodObj "T" clearableFood).lookup "customImageUrl" = some (.str "") ∧
    (sanitizeFoodObj "T" clearableFood).lookup "customImageAttribution" = some (.str "") ∧
    (sanitizeFoodObj "T" clearableFood).lookup "customImageAttributionUrl" =
      some (.str "") ∧
    (sanitizeFoodObj "T" clearableFood).lookup "imageSource" = some (.str "") ∧
    (sanitizeFoodObj "T" clearableFood).lookup "imageGeneratedAt" = some (.str "") :=
  sanitize_clears_image_group "T" [] clearBody wClearSnap 1
    ([] ++ [StorageRow.mk "abcdefgh" "profile1" wClearSnap 1 "T"])
    (.obj (.cons "foods" (.obj (.cons "x" (.obj clearableFood) .nil)) .nil))
    (.cons "x" (.obj clearableFood) .nil) clearableFood "x" (by decide) rfl (by decide)
    (by decide) (by decide) (by decide)

theorem sanitize_clears_image_group_counterexample :
    (pushHandler "T" [] staleBody).1 = .accepted
      (Json.obj (.cons "foods" (.obj (.cons "x" (.obj staleFood) .nil))
        (.cons "familyOverrides" (.obj .nil)
          (.cons "revision" (.num 1) (.cons "updatedAt" (.str "T") .nil))))) 1 ∧
    shouldClearManualImage (staleFood.lookup "customImageAttribution") = true ∧
    staleFood.lookup "imageSource" = some (.str "stale") := by
  exact ⟨by decide, by decide, by decide⟩
